import Mathlib

/-!
Verification development for the OntoGenesis core: a shallow embedding of
the capability graph (`src/ontology/graph.py`), the synthesis retry loop
(`src/agent/core.py`), the schema validator emitted by
`src/synthesis/test_generator.py`, the code-block extractor
(`src/utils/code_parsing.py`) and the provider factory
(`src/synthesis/factory.py`), together with theorems settling the frozen
claims about them.

Machine-level conventions: Python/JSON values are modelled by the `JValue`
inductive; Python exceptions become `Except` errors carrying the `str(e)`
text where the control flow depends on it; the networkx `DiGraph` owned by
`CapabilityGraph` is modelled as explicit node/edge association lists with
networkx's mutation semantics (`add_node` upserts an attribute,
`add_edge` silently creates missing endpoints).
-/

set_option maxHeartbeats 1000000

/-- A JSON-like Python value (the payloads flowing through the system:
schemas, inputs, outputs).  Python `dict`s become ordered association
lists, Python `bool` is kept separate from `int` (but note that in Python
`bool` is a subclass of `int`, which matters for `isinstance(x, int)`). -/
inductive JValue where
  | null : JValue
  | bool (b : Bool) : JValue
  | int (n : Int) : JValue
  | str (s : String) : JValue
  | arr (xs : List JValue) : JValue
  | obj (fields : List (String × JValue)) : JValue

/-- Python `d.get(k)` / `k in d` on a dict modelled as an association list:
first binding of the key, if any. -/
def jget (fields : List (String × JValue)) (k : String) : Option JValue :=
  (fields.find? (fun p => p.1 == k)).map (fun p => p.2)

/-- `schema.get(k)` when the schema is a JSON object; `none` otherwise. -/
def JValue.get? : JValue → String → Option JValue
  | .obj fields, k => jget fields k
  | _, _ => none

/-- A `Tool` edge record (`src/ontology/tools.py`): pydantic model with
required `name`, `input_type`, `output_type` and defaulted `constraints`
and `code`. -/
structure Tool where
  name : String
  input_type : String
  output_type : String
  constraints : List String
  code : String
deriving DecidableEq, Repr

/-- The state of `CapabilityGraph` (`src/ontology/graph.py`): a networkx
`DiGraph` whose nodes may carry a `schema` attribute (absent when the node
was created implicitly by `add_edge`) and whose edges carry a `tool`
attribute (always present, since every edge is created by `add_tool`). -/
structure CapabilityGraph where
  nodes : List (String × Option JValue)
  edges : List ((String × String) × Tool)

/-- `CapabilityGraph()` — a fresh empty `nx.DiGraph`. -/
def emptyCG : CapabilityGraph := ⟨[], []⟩

/-- `name in graph.nodes`. -/
def hasNode (g : CapabilityGraph) (n : String) : Bool :=
  g.nodes.any (fun p => p.1 == n)

/-- `graph.has_edge(u, v)`. -/
def hasEdge (g : CapabilityGraph) (u v : String) : Bool :=
  g.edges.any (fun e => e.1 == (u, v))

/-- The `schema` attribute of a node: `none` when the node is absent or
carries no `schema` attribute. -/
def getSchema (g : CapabilityGraph) (n : String) : Option JValue :=
  match g.nodes.find? (fun p => p.1 == n) with
  | some (_, s) => s
  | none => none

/-- The `tool` attribute of the edge `(u, v)`, if the edge exists. -/
def getTool (g : CapabilityGraph) (u v : String) : Option Tool :=
  (g.edges.find? (fun e => e.1 == (u, v))).map (fun e => e.2)

/-- networkx `add_node(n)` without attributes: a no-op when the node
already exists, otherwise appends a node with no `schema` attribute.
(Used implicitly by `add_edge` for missing endpoints.) -/
def addNodeBare (g : CapabilityGraph) (n : String) : CapabilityGraph :=
  if hasNode g n then g else ⟨g.nodes ++ [(n, none)], g.edges⟩

/-- `CapabilityGraph.add_type`: `self.graph.add_node(name, schema=...)` —
registers the node or overwrites the `schema` attribute of an existing
node. -/
def add_type (g : CapabilityGraph) (name : String) (schema : JValue) : CapabilityGraph :=
  if hasNode g name then
    ⟨g.nodes.map (fun p => if p.1 == name then (p.1, some schema) else p), g.edges⟩
  else
    ⟨g.nodes ++ [(name, some schema)], g.edges⟩

/-- `CapabilityGraph.add_tool`: `self.graph.add_edge(tool.input_type,
tool.output_type, tool=tool)` — networkx silently creates missing endpoint
nodes (with no attributes) and upserts the edge's `tool` attribute.  No
check that the endpoints were registered is performed. -/
def add_tool (g : CapabilityGraph) (t : Tool) : CapabilityGraph :=
  let g1 := addNodeBare g t.input_type
  let g2 := addNodeBare g1 t.output_type
  if hasEdge g2 t.input_type t.output_type then
    ⟨g2.nodes, g2.edges.map (fun e =>
      if e.1 == (t.input_type, t.output_type) then (e.1, t) else e)⟩
  else
    ⟨g2.nodes, g2.edges ++ [((t.input_type, t.output_type), t)]⟩

/-- Successor names of `u` (targets of out-edges), with multiplicity of the
edge list. -/
def successors (g : CapabilityGraph) (u : String) : List String :=
  g.edges.filterMap (fun e => if e.1.1 == u then some e.1.2 else none)

/-- Predecessor names of `v` (sources of in-edges). -/
def predecessors (g : CapabilityGraph) (v : String) : List String :=
  g.edges.filterMap (fun e => if e.1.2 == v then some e.1.1 else none)

/-- `isWalkFrom g s t l` — `l` is the list of nodes visited after `s` on a
directed walk from `s` to `t`; its length is the number of edges. -/
def isWalkFrom (g : CapabilityGraph) : String → String → List String → Bool
  | s, t, [] => s == t
  | s, t, v :: rest => hasEdge g s v && isWalkFrom g v t rest

/-- `t` is reachable from `s` along directed edges (networkx's notion of a
path; a node trivially reaches itself). -/
def Reachable (g : CapabilityGraph) (s t : String) : Prop :=
  ∃ l, isWalkFrom g s t l = true

/-- One breadth-first expansion step: a set of nodes together with all of
their direct successors. -/
def stepF (g : CapabilityGraph) (S : Finset String) : Finset String :=
  S ∪ S.biUnion (fun u => (successors g u).toFinset)

/-- `levels g s n` — the nodes at breadth-first distance at most `n` from
`s`. -/
def levels (g : CapabilityGraph) (s : String) : Nat → Finset String
  | 0 => {s}
  | n + 1 => stepF g (levels g s n)

/-- An iteration count large enough to saturate `levels` (one more than
the number of edges, which bounds the number of distinct successor
names plus the start node). -/
def reachBound (g : CapabilityGraph) : Nat := g.edges.length + 1

/-- The full set of nodes reachable from `s` (including `s` itself):
models `nx.descendants(G, s) ∪ {s}`. -/
def reachSet (g : CapabilityGraph) (s : String) : Finset String :=
  levels g s (reachBound g)

/-- `CapabilityGraph.forward_search`: empty set when the node is absent,
otherwise `descendants ∪ {start}`. -/
def forward_search (g : CapabilityGraph) (s : String) : Finset String :=
  if hasNode g s then reachSet g s else ∅

/-- The graph with every edge reversed (same nodes, same tools), used to
model `nx.ancestors`. -/
def reverseGraph (g : CapabilityGraph) : CapabilityGraph :=
  ⟨g.nodes, g.edges.map (fun e => ((e.1.2, e.1.1), e.2))⟩

/-- `CapabilityGraph.backward_search`: empty set when the node is absent,
otherwise `ancestors ∪ {end}` (= forward reachability in the reversed
graph). -/
def backward_search (g : CapabilityGraph) (t : String) : Finset String :=
  if hasNode g t then reachSet (reverseGraph g) t else ∅

/-- `leastLevelAux g s t fuel k` — the least `m ∈ [k, k+fuel)` with
`t ∈ levels g s m`, if any. -/
def leastLevelAux (g : CapabilityGraph) (s t : String) : Nat → Nat → Option Nat
  | 0, _ => none
  | fuel + 1, k => if t ∈ levels g s k then some k else leastLevelAux g s t fuel (k + 1)

/-- The breadth-first distance from `s` to `t` (number of edges of a
shortest path), or `none` when `t` is unreachable from `s`. -/
def leastLevel (g : CapabilityGraph) (s t : String) : Option Nat :=
  leastLevelAux g s t (reachBound g + 1) 0

/-- Reconstructs a node list `s :: l` realising a walk from `s` to `t`
with at most `n` edges, walking predecessor links back through the
breadth-first levels.  Total on every `t ∈ levels g s n`. -/
def buildPath (g : CapabilityGraph) (s : String) : Nat → String → Option (List String)
  | 0, t => if t == s then some [s] else none
  | n + 1, t =>
    match buildPath g s n t with
    | some p => some p
    | none =>
      match (predecessors g t).find? (fun u => decide (u ∈ levels g s n)) with
      | some u => (buildPath g s n u).map (fun p => p ++ [t])
      | none => none

/-- The two networkx exceptions relevant to `shortest_path`:
`NodeNotFound` (source or target not in the graph) and `NetworkXNoPath`. -/
inductive NxError where
  | nodeNotFound : NxError
  | noPath : NxError
deriving DecidableEq, Repr

/-- Models `nx.shortest_path(G, source, target)` (unweighted, so shortest
by edge count): raises `NodeNotFound` when either endpoint is absent,
`NetworkXNoPath` when no path exists, and otherwise returns the node list
of a shortest path (starting at `source`, ending at `target`). -/
def nx_shortest_path (g : CapabilityGraph) (s t : String) : Except NxError (List String) :=
  if hasNode g s && hasNode g t then
    match leastLevel g s t with
    | some n => .ok ((buildPath g s n t).getD [])
    | none => .error .noPath
  else
    .error .nodeNotFound

/-- `CapabilityGraph.find_path`: `nx.shortest_path` with only
`NetworkXNoPath` caught (mapped to `[]`); `NodeNotFound` propagates to the
caller. -/
def find_path (g : CapabilityGraph) (s t : String) : Except NxError (List String) :=
  match nx_shortest_path g s t with
  | .ok p => .ok p
  | .error .noPath => .ok []
  | .error .nodeNotFound => .error .nodeNotFound

/-- The dictionary returned by `detect_gap`: either `{"gap": False}` or
`{"gap": True, "source": ..., "target": ..., "forward_reachable": ...,
"backward_required": ...}` (the Python lists of the two sets are modelled
as the sets themselves). -/
inductive GapResult where
  | noGap : GapResult
  | gap (source target : String) (forward_reachable backward_required : Finset String) : GapResult

/-- `CapabilityGraph.detect_gap`: returns no-gap when `find_path` returns
a non-empty (truthy) list; otherwise reports a gap from `start` to `end`
together with the forward-reachable and backward-required sets.  Errors
raised by `find_path` (`NodeNotFound`) propagate. -/
def detect_gap (g : CapabilityGraph) (s t : String) : Except NxError GapResult :=
  match find_path g s t with
  | .error e => .error e
  | .ok p =>
    if p.isEmpty then
      .ok (.gap s t (forward_search g s) (backward_search g t))
    else
      .ok .noGap

/-- The JSON object produced by `Tool.model_dump()`. -/
def toolToJson (t : Tool) : JValue :=
  .obj [("name", .str t.name), ("input_type", .str t.input_type),
        ("output_type", .str t.output_type),
        ("constraints", .arr (t.constraints.map JValue.str)),
        ("code", .str t.code)]

/-- `CapabilityGraph.save_to_json`: the document passed to `json.dump` —
`{"nodes": [{"name", "schema"}...], "edges": [{"source", "target",
"tool"}...]}`.  A node without a `schema` attribute is saved with
`attrs.get("schema", {})`, i.e. an empty object; every edge carries a
`tool` attribute, so the `if "tool" in attrs` guard always passes.
(The file write itself is I/O and is abstracted away; `json.dump` followed
by `json.load` is the identity on these documents.) -/
def save_to_json (g : CapabilityGraph) : JValue :=
  .obj [("nodes", .arr (g.nodes.map (fun p =>
           .obj [("name", .str p.1), ("schema", p.2.getD (.obj []))]))),
        ("edges", .arr (g.edges.map (fun e =>
           .obj [("source", .str e.1.1), ("target", .str e.1.2),
                 ("tool", toolToJson e.2)])))]

/-- Pydantic: a required field that must be a string. -/
def reqStr (fs : List (String × JValue)) (k : String) : Except String String :=
  match jget fs k with
  | some (.str s) => .ok s
  | some _ => .error ("validation error for field " ++ k)
  | none => .error ("missing required field " ++ k)

/-- Pydantic: an optional `List[str]` field defaulting to `[]`. -/
def optStrList (fs : List (String × JValue)) (k : String) : Except String (List String) :=
  match jget fs k with
  | none => .ok []
  | some (.arr xs) => xs.mapM (fun x => match x with
      | .str s => Except.ok s
      | _ => Except.error ("validation error for field " ++ k))
  | some _ => .error ("validation error for field " ++ k)

/-- Pydantic: an optional `str` field defaulting to `""`. -/
def optStr (fs : List (String × JValue)) (k : String) : Except String String :=
  match jget fs k with
  | none => .ok ""
  | some (.str s) => .ok s
  | some _ => .error ("validation error for field " ++ k)

/-- `Tool(**tool_data)` — pydantic validation of a tool dictionary. -/
def parseTool (v : JValue) : Except String Tool :=
  match v with
  | .obj fs => do
    let name ← reqStr fs "name"
    let input_type ← reqStr fs "input_type"
    let output_type ← reqStr fs "output_type"
    let constraints ← optStrList fs "constraints"
    let code ← optStr fs "code"
    pure ⟨name, input_type, output_type, constraints, code⟩
  | _ => .error "tool data is not a dict"

/-- `DataType(name=node_data["name"], schema_def=node_data["schema"])` —
requires both keys present, `name` a string and `schema_def` a dict. -/
def parseNodeEntry (v : JValue) : Except String (String × JValue) :=
  match v with
  | .obj fs =>
    match jget fs "name", jget fs "schema" with
    | some (.str n), some (.obj sfs) => .ok (n, .obj sfs)
    | _, _ => .error "invalid node entry"
  | _ => .error "node entry is not a dict"

/-- `CapabilityGraph.load_from_json` applied to an already-parsed JSON
document (the missing-file no-op and file I/O are outside the model):
clears the graph, then `add_type`s every entry of `data["nodes"]` and
`add_tool`s every `edge_data["tool"]` of `data["edges"]`, in order. -/
def load_from_json (doc : JValue) : Except String CapabilityGraph :=
  match doc with
  | .obj fs =>
    match jget fs "nodes", jget fs "edges" with
    | some (.arr nodeList), some (.arr edgeList) => do
      let g ← nodeList.foldlM (fun g nv => do
          let p ← parseNodeEntry nv
          pure (add_type g p.1 p.2)) emptyCG
      edgeList.foldlM (fun g ev =>
          match ev with
          | .obj efs =>
            match jget efs "tool" with
            | some tv => do
              let t ← parseTool tv
              pure (add_tool g t)
            | none => .error "KeyError: tool"
          | _ => .error "edge entry is not a dict") g
    | _, _ => .error "KeyError: nodes or edges"
  | _ => .error "document is not a dict"

/-- `schema.get("type")` when it is a string tag; `none` otherwise (a
non-string tag compares unequal to every tag literal in the generated
validator, so all tag branches fall through). -/
def schemaTag (schema : JValue) : Option String :=
  match schema.get? "type" with
  | some (.str s) => some s
  | _ => none

/-- `isinstance(data, int)` — in Python `bool` is a subclass of `int`. -/
def pyIsInt : JValue → Bool
  | .int _ => true
  | .bool _ => true
  | _ => false

/-- `isinstance(data, str)`. -/
def pyIsStr : JValue → Bool
  | .str _ => true
  | _ => false

mutual
/-- The `validate_schema(data, schema)` function inside the pytest source
emitted by `TestGenerator.generate_test_code`: a schema tagged `array`
requires a list, recursively checking elements against `items` when
present; a schema tagged `object` requires a dict, recursively checking
each declared property that is present (absent keys pass); `string` and
`integer` require the matching runtime kind; any other (or missing) tag
passes.  The Python asserts are modelled as a Bool result (`true` = no
assertion fires).  Python would raise `AttributeError` on a non-dict
sub-schema; the model lets such a sub-schema pass vacuously — every claim
involves dict-shaped schemas, where the two coincide. -/
def validate_schema : JValue → JValue → Bool
  | data, schema =>
    if schemaTag schema == some "array" then
      match data with
      | .arr items =>
        match schema.get? "items" with
        | some isch => validateItems items isch
        | none => true
      | _ => false
    else if schemaTag schema == some "object" then
      match data with
      | .obj fields =>
        match schema.get? "properties" with
        | some (.obj props) => validateProps fields props
        | some _ => true
        | none => true
      | _ => false
    else if schemaTag schema == some "string" then pyIsStr data
    else if schemaTag schema == some "integer" then pyIsInt data
    else true
termination_by data schema => (sizeOf data, 0)
decreasing_by
  all_goals simp_wf
  all_goals apply Prod.Lex.left
  all_goals omega

/-- `for item in data: validate_schema(item, schema["items"])`. -/
def validateItems : List JValue → JValue → Bool
  | [], _ => true
  | x :: xs, isch => validate_schema x isch && validateItems xs isch
termination_by l isch => (sizeOf l, 0)
decreasing_by
  all_goals simp_wf
  all_goals apply Prod.Lex.left
  all_goals omega

/-- `for prop, prop_schema in schema["properties"].items(): if prop in
data: validate_schema(data[prop], prop_schema)`. -/
def validateProps : List (String × JValue) → List (String × JValue) → Bool
  | _, [] => true
  | fields, (k, psch) :: props =>
    (match h : jget fields k with
     | some v => validate_schema v psch
     | none => true) && validateProps fields props
termination_by fields props => (sizeOf fields, sizeOf props)
decreasing_by
  all_goals simp_wf
  · apply Prod.Lex.left
    unfold jget at h
    rcases Option.map_eq_some'.mp h with ⟨p, hfind, hv⟩
    have hmem : p ∈ fields := List.mem_of_find?_eq_some hfind
    have h1 : sizeOf p < sizeOf fields := List.sizeOf_lt_of_mem hmem
    obtain ⟨k', v'⟩ := p
    simp only at hv
    subst hv
    simp only [Prod.mk.sizeOf_spec] at h1
    omega
  · apply Prod.Lex.right
    omega
end

/-- `"subject" in triple and "predicate" in triple and "object" in triple`
for a dict element (non-dict elements fail the membership check in the
model; in Python a non-dict element would raise or fail the assert). -/
def hasTripleKeys : JValue → Bool
  | .obj fs => (jget fs "subject").isSome && (jget fs "predicate").isSome
      && (jget fs "object").isSome
  | _ => false

/-- The `KGTriples` overlay of the generated test: `len(result) > 0` and
every element carries the three triple fields.  A non-list result is
modelled as failing (Python would raise `TypeError` on `len` or apply
string/dict membership semantics; no claim exercises that corner). -/
def kgCheck : JValue → Bool
  | .arr xs => decide (0 < xs.length) && xs.all hasTripleKeys
  | _ => false

/-- The `test_output_schema` body of the generated pytest file (with the
result already read from `result.json`): the generic structural check,
plus the `KGTriples` overlay when the target type has that name. -/
def test_output_schema (target_type : String) (schema result : JValue) : Bool :=
  validate_schema result schema &&
    (if target_type == "KGTriples" then kgCheck result else true)

/-- Python `str.strip()` whitespace characters. -/
def isPyWs (c : Char) : Bool :=
  c == ' ' || c == '\t' || c == '\n' || c == '\r' || c == '\x0b' || c == '\x0c'

/-- Python `str.strip()` on a character list. -/
def pyStripChars (l : List Char) : List Char :=
  ((l.dropWhile isPyWs).reverse.dropWhile isPyWs).reverse

/-- Index of the first occurrence of `pat` in the list, starting the count
at `i`. -/
def subIdxAux (pat : List Char) : List Char → Nat → Option Nat
  | [], i => if pat.isEmpty then some i else none
  | c :: rest, i =>
    if pat.isPrefixOf (c :: rest) then some i else subIdxAux pat rest (i + 1)

/-- Index of the first occurrence of `pat` in `l` (the leftmost-match
position of `re.search` for a literal pattern). -/
def subIdx (pat l : List Char) : Option Nat := subIdxAux pat l 0

/-- The untagged-fence fallback of `extract_code_block`: the first
```` ``` ```` fence up to the next one, stripped; otherwise the whole text
stripped. -/
def extractAny (cs : List Char) : String :=
  match subIdx ("```".toList) cs with
  | some i =>
    let after := cs.drop (i + 3)
    match subIdx ("```".toList) after with
    | some j => String.mk (pyStripChars (after.take j))
    | none => String.mk (pyStripChars cs)
  | none => String.mk (pyStripChars cs)

/-- `extract_code_block(text, language="python")`
(`src/utils/code_parsing.py`): the content of the first
```` ```python ```` fenced block (tag matched case-insensitively, content
stripped); else the first untagged fenced block; else the whole text
stripped.  The regex `(.*?)` is non-greedy, so the block ends at the first
following ```` ``` ````. -/
def extract_code_block (text : String) : String :=
  let cs := text.toList
  let pyTag := "```python".toList
  match subIdx pyTag (cs.map Char.toLower) with
  | some i =>
    let afterTag := cs.drop (i + pyTag.length)
    match subIdx ("```".toList) afterTag with
    | some j => String.mk (pyStripChars (afterTag.take j))
    | none => extractAny cs
  | none => extractAny cs

/-- The two provider variants known to `LLMFactory`. -/
inductive LLMProviderKind where
  | openai : LLMProviderKind
  | ollama : LLMProviderKind
deriving DecidableEq, Repr

/-- Python `str.lower()`, defined over the character list (ASCII case
mapping, as `Char.toLower` provides). -/
def pyLower (s : String) : String := String.mk (s.toList.map Char.toLower)

/-- `LLMFactory.create_provider` (`src/synthesis/factory.py`):
case-insensitive name dispatch; an unknown name raises
`ValueError(f"Unknown provider type: {provider_type}")` immediately. -/
def create_provider (provider_type : String) : Except String LLMProviderKind :=
  if pyLower provider_type == "openai" then .ok .openai
  else if pyLower provider_type == "ollama" then .ok .ollama
  else .error ("Unknown provider type: " ++ provider_type)

/-- The agent's execution modes: `CodeRunner` (trusted, in-process) for
`"local"`, `DockerRunner` (isolated) for `"docker"`. -/
inductive ExecMode where
  | localMode : ExecMode
  | dockerMode : ExecMode
deriving DecidableEq, Repr

/-- The collaborators of `OntoGenesisAgent.solve_task`, abstracted:
`gen i p` is the text returned by the i-th `llm_provider.generate` call
(on prompt `p`); `runExec code input` is `runner.run_code(code,
"transform", input_data=input)` returning the produced value or `str(e)`
of the raised failure; `verification_fn` signals failure by an error
(Python: by raising) carrying `str(e)`. -/
structure AgentCtx where
  gen : Nat → String → String
  runExec : String → JValue → Except String JValue
  verification_fn : Option (JValue → Except String Unit)
  mode : ExecMode

/-- The exceptions `solve_task` lets escape: networkx `NodeNotFound` from
gap detection, `NotImplementedError` on the no-gap branch, and the
terminal `RuntimeError` after retries are exhausted (the spec's
`SynthesisExhausted`). -/
inductive AgentError where
  | nodeNotFound : AgentError
  | notImplemented (msg : String) : AgentError
  | synthesisExhausted (msg : String) : AgentError
deriving DecidableEq, Repr

/-- The observable outcome of one `solve_task` call: its returned value or
raised error, plus the list of prompts sent to the generation
collaborator, in order. -/
structure SolveOutcome where
  result : Except AgentError JValue
  prompts : List String

/-- A single-quote character (apostrophe), as used by Python `repr`. -/
def sQuote : String := String.singleton (Char.ofNat 39)

/-- `repr`-style quoting, as in `str(KeyError(name))`. -/
def pyQuote (s : String) : String := sQuote ++ s ++ sQuote

/-- `self.graph.graph.nodes[n]["schema"]`: `str(KeyError)` text when the
node is absent or carries no `schema` attribute. -/
def nodeSchemaLookup (g : CapabilityGraph) (n : String) : Except String JValue :=
  match g.nodes.find? (fun p => p.1 == n) with
  | none => .error (pyQuote n)
  | some (_, none) => .error (pyQuote "schema")
  | some (_, some s) => .ok s

/-- Minimal JSON string escaping (backslash and double quote). -/
def jsonEscape (s : String) : String :=
  s.foldl (fun acc c =>
    acc ++ (if c == '"' then "\\\"" else if c == '\\' then "\\\\"
            else String.singleton c)) ""

/-- Models `json.dumps(schema, indent=2)` compactly: the exact whitespace
layout of the dump is abstracted (no claim depends on it); the rendered
text is a function of the schema only, as in the source. -/
def dumps : JValue → String
  | .null => "null"
  | .bool b => if b then "true" else "false"
  | .int n => toString n
  | .str s => "\"" ++ jsonEscape s ++ "\""
  | .arr xs =>
    "[" ++ String.intercalate ", " (xs.attach.map (fun x => dumps x.1)) ++ "]"
  | .obj fs =>
    String.singleton (Char.ofNat 123)
      ++ String.intercalate ", " (fs.attach.map (fun p =>
           "\"" ++ jsonEscape p.1.1 ++ "\": " ++ dumps p.1.2))
      ++ String.singleton (Char.ofNat 125)
termination_by v => sizeOf v
decreasing_by
  · have h1 := List.sizeOf_lt_of_mem x.2
    simp only [JValue.arr.sizeOf_spec]
    omega
  · have h1 := List.sizeOf_lt_of_mem p.2
    obtain ⟨⟨a, b⟩, hp⟩ := p
    simp only [Prod.mk.sizeOf_spec] at h1
    simp only [JValue.obj.sizeOf_spec]
    omega

/-- The base generation prompt of `OntoGenesisAgent._synthesize_tool`
(the f-string template, with both schemas rendered by `json.dumps`). -/
def mkBasePrompt (start_type target_type : String) (start_schema target_schema : JValue) : String :=
  "\nYou are an expert Python developer.\nWe have a data type "
    ++ pyQuote start_type ++ " with schema:\n" ++ dumps start_schema
    ++ "\n\nWe need to transform it into " ++ pyQuote target_type
    ++ " with schema:\n" ++ dumps target_schema
    ++ "\n\nWrite a Python function `transform(input_data) -> output_data` that performs this conversion.\nThe input is of type "
    ++ start_type
    ++ ".\nThe output must strictly adhere to the target schema.\nIf the input is HTML, use BeautifulSoup.\nUse specific predicates if the target schema implies a Knowledge Graph (e.g., hasName, hasRole).\nReturn ONLY the python code, wrapped in a markdown code block.\n"

/-- The feedback section appended to the prompt when a previous attempt
failed (`if feedback and previous_code:`). -/
def mkFeedbackSection (previous_code feedback : String) : String :=
  "\n\nPREVIOUS ATTEMPT FAILED.\nCODE:\n" ++ previous_code
    ++ "\n\nERROR:\n" ++ feedback ++ "\n\nFix the code to resolve the error.\n"

/-- Python truthiness of the `Optional[str]` loop state: `None` and the
empty string are falsy. -/
def pyTruthy : Option String → Bool
  | none => false
  | some s => s != ""

/-- The prompt built by `_synthesize_tool`: both schema lookups (which can
raise `KeyError`, caught by the retry loop), the base template, and the
feedback section when both `feedback` and `previous_code` are truthy. -/
def synth_prompt (g : CapabilityGraph) (start target : String)
    (feedback previous_code : Option String) : Except String String := do
  let ss ← nodeSchemaLookup g start
  let ts ← nodeSchemaLookup g target
  let base := mkBasePrompt start target ss ts
  if pyTruthy feedback && pyTruthy previous_code then
    pure (base ++ mkFeedbackSection (previous_code.getD "") (feedback.getD ""))
  else
    pure base

/-- The verification step of `solve_task`: the caller-supplied predicate
if any; otherwise schema-based verification only when the runner is the
`DockerRunner` (looking up the target schema, generating the pytest code
and running it in the sandbox — modelled by `test_output_schema`); in
local mode, no verification at all.  The pytest log text inside the raised
`RuntimeError` is abstracted to a fixed placeholder. -/
def verifyStep (ctx : AgentCtx) (g : CapabilityGraph) (target : String)
    (v : JValue) : Except String Unit :=
  match ctx.verification_fn with
  | some f => f v
  | none =>
    match ctx.mode with
    | .dockerMode =>
      match nodeSchemaLookup g target with
      | .error e => .error e
      | .ok ts =>
        if test_output_schema target ts v then .ok ()
        else .error "Verification failed: pytest reported failures"
    | .localMode => .ok ()

/-- The terminal message of the retry loop:
`f"Failed to solve task after {max_retries} retries. Last error: {feedback}"`. -/
def exhaustMsg (max_retries : Nat) (feedback : String) : String :=
  "Failed to solve task after " ++ toString max_retries
    ++ " retries. Last error: " ++ feedback

/-- The `for attempt in range(max_retries + 1)` retry loop of
`solve_task`, with its `try/except` body: synthesize (schema lookups +
generate + extract), execute, verify; any failure becomes the feedback
string `str(e)` and, unless `attempt == max_retries`, the loop retries
with the failing code retained as `previous_code`.  `fuel` is the number
of remaining iterations (`max_retries + 1 - attempt`); if the loop ever
ran out of iterations without the terminal raise, Python would fall off
the function and return `None` (modelled by `.ok .null` — unreachable
from `solve_task`, which starts with `fuel = max_retries + 1`). -/
def solveLoop (ctx : AgentCtx) (g : CapabilityGraph) (start target : String)
    (input : JValue) (max_retries : Nat) :
    Nat → Nat → Option String → Option String → List String → SolveOutcome
  | 0, _, _, _, prompts => ⟨.ok .null, prompts⟩
  | fuel + 1, attempt, feedback, current_code, prompts =>
    match synth_prompt g start target feedback current_code with
    | .error e =>
      if attempt == max_retries then
        ⟨.error (.synthesisExhausted (exhaustMsg max_retries e)), prompts⟩
      else
        solveLoop ctx g start target input max_retries fuel (attempt + 1)
          (some e) current_code prompts
    | .ok prompt =>
      let response := ctx.gen prompts.length prompt
      let code := extract_code_block response
      let prompts2 := prompts ++ [prompt]
      match ctx.runExec code input with
      | .error e =>
        if attempt == max_retries then
          ⟨.error (.synthesisExhausted (exhaustMsg max_retries e)), prompts2⟩
        else
          solveLoop ctx g start target input max_retries fuel (attempt + 1)
            (some e) (some code) prompts2
      | .ok v =>
        match verifyStep ctx g target v with
        | .error e =>
          if attempt == max_retries then
            ⟨.error (.synthesisExhausted (exhaustMsg max_retries e)), prompts2⟩
          else
            solveLoop ctx g start target input max_retries fuel (attempt + 1)
              (some e) (some code) prompts2
        | .ok _ => ⟨.ok v, prompts2⟩

/-- `OntoGenesisAgent.solve_task`: gap detection first (`NodeNotFound`
propagates uncaught; a non-gap result raises `NotImplementedError`), then
the bounded synthesize→execute→verify retry loop. -/
def solve_task (ctx : AgentCtx) (g : CapabilityGraph) (start target : String)
    (input : JValue) (max_retries : Nat) : SolveOutcome :=
  match detect_gap g start target with
  | .error _ => ⟨.error .nodeNotFound, []⟩
  | .ok .noGap => ⟨.error (.notImplemented "Multi-step execution not yet implemented."), []⟩
  | .ok (.gap _ _ _ _) =>
    solveLoop ctx g start target input max_retries (max_retries + 1) 0 none none []

/-- The node carries a `schema` attribute that is a JSON object (always
true for nodes registered through `add_type`, whose pydantic `DataType`
requires a dict). -/
def isObjSchema : Option JValue → Bool
  | some (.obj _) => true
  | _ => false

/-- The example schema of the spec: an array of objects with a string
`subject` property. -/
def exSchema : JValue :=
  .obj [("type", .str "array"),
        ("items", .obj [("type", .str "object"),
          ("properties", .obj [("subject", .obj [("type", .str "string")])])])]

/-- Concrete fixture: a tool bridging `"A" → "B"`. -/
def tAB : Tool := ⟨"t_ab", "A", "B", ["c1"], "def transform(x): return x"⟩

/-- Concrete fixture: two registered types `"A"`, `"B"` and no tools. -/
def gW : CapabilityGraph :=
  add_type (add_type emptyCG "A" (.obj [("type", .str "string")]))
    "B" (.obj [("type", .str "string")])

/-- Concrete fixture: `gW` plus the direct edge `"A" → "B"`. -/
def gWE : CapabilityGraph := add_tool gW tAB

/-- Concrete fixture: a generation collaborator whose code always fails to
execute. -/
def ctxFail : AgentCtx :=
  ⟨fun _ _ => "```python\nbad\n```", fun _ _ => .error "boom", none, .localMode⟩

/-- Concrete fixture: invalid code on the first generation call, valid
code on the second; execution fails exactly on the invalid code. -/
def ctxRetry : AgentCtx :=
  ⟨fun i _ => if i == 0 then "```python\nbad\n```" else "```python\ngood\n```",
   fun c _ => if c == "bad" then .error "boom" else .ok (.str "done"),
   none, .localMode⟩

/-- Concrete fixture: generation whose code executes successfully but
produces a value violating the target schema. -/
def ctxPlain : AgentCtx :=
  ⟨fun _ _ => "```python\npc\n```", fun _ _ => .ok (.int 3), none, .localMode⟩

theorem mem_successors {g : CapabilityGraph} {u v : String} :
    v ∈ successors g u ↔ hasEdge g u v = true := by
  simp only [successors, hasEdge, List.mem_filterMap, List.any_eq_true, beq_iff_eq]
  constructor
  · rintro ⟨e, he, hif⟩
    refine ⟨e, he, ?_⟩
    by_cases h : e.1.1 = u
    · simp [h] at hif
      exact Prod.ext h hif
    · simp [h] at hif
  · rintro ⟨e, he, hkey⟩
    exact ⟨e, he, by simp [hkey]⟩

theorem mem_predecessors {g : CapabilityGraph} {u v : String} :
    u ∈ predecessors g v ↔ hasEdge g u v = true := by
  simp only [predecessors, hasEdge, List.mem_filterMap, List.any_eq_true, beq_iff_eq]
  constructor
  · rintro ⟨e, he, hif⟩
    refine ⟨e, he, ?_⟩
    by_cases h : e.1.2 = v
    · simp [h] at hif
      exact Prod.ext hif h
    · simp [h] at hif
  · rintro ⟨e, he, hkey⟩
    exact ⟨e, he, by simp [hkey]⟩

theorem walk_append {g : CapabilityGraph} {s t u : String} {l1 l2 : List String}
    (h1 : isWalkFrom g s t l1 = true) (h2 : isWalkFrom g t u l2 = true) :
    isWalkFrom g s u (l1 ++ l2) = true := by
  induction l1 generalizing s with
  | nil =>
    simp only [isWalkFrom, beq_iff_eq] at h1
    subst h1
    simpa using h2
  | cons v rest ih =>
    simp only [isWalkFrom, Bool.and_eq_true] at h1 ⊢
    exact ⟨h1.1, ih h1.2⟩

theorem walk_snoc {g : CapabilityGraph} {s t v : String} {l : List String}
    (h : isWalkFrom g s t (l ++ [v]) = true) :
    v = t ∧ ∃ u, isWalkFrom g s u l = true ∧ hasEdge g u t = true := by
  induction l generalizing s with
  | nil =>
    simp only [List.nil_append, isWalkFrom, Bool.and_eq_true, beq_iff_eq] at h
    obtain ⟨he, hv⟩ := h
    subst hv
    exact ⟨rfl, s, by simp [isWalkFrom], he⟩
  | cons w rest ih =>
    simp only [List.cons_append, isWalkFrom, Bool.and_eq_true] at h
    obtain ⟨he, hrest⟩ := h
    obtain ⟨hv, u, hwalk, hedge⟩ := ih hrest
    exact ⟨hv, u, by simp [isWalkFrom, he, hwalk], hedge⟩

theorem mem_stepF {g : CapabilityGraph} {S : Finset String} {x : String} :
    x ∈ stepF g S ↔ x ∈ S ∨ ∃ u ∈ S, hasEdge g u x = true := by
  simp only [stepF, Finset.mem_union, Finset.mem_biUnion, List.mem_toFinset]
  constructor
  · rintro (h | ⟨u, hu, hx⟩)
    · exact Or.inl h
    · exact Or.inr ⟨u, hu, mem_successors.mp hx⟩
  · rintro (h | ⟨u, hu, hx⟩)
    · exact Or.inl h
    · exact Or.inr ⟨u, hu, mem_successors.mpr hx⟩

theorem subset_stepF {g : CapabilityGraph} {S : Finset String} : S ⊆ stepF g S :=
  Finset.subset_union_left

theorem stepF_mono {g : CapabilityGraph} {S T : Finset String} (h : S ⊆ T) :
    stepF g S ⊆ stepF g T :=
  Finset.union_subset_union h (Finset.biUnion_subset_biUnion_of_subset_left _ h)

theorem levels_subset_succ {g : CapabilityGraph} {s : String} {n : Nat} :
    levels g s n ⊆ levels g s (n + 1) :=
  subset_stepF

theorem levels_mono {g : CapabilityGraph} {s : String} {m n : Nat} (h : m ≤ n) :
    levels g s m ⊆ levels g s n := by
  induction n with
  | zero =>
    have : m = 0 := Nat.le_zero.mp h
    subst this
    exact Finset.Subset.refl _
  | succ k ih =>
    rcases Nat.lt_or_ge m (k + 1) with hlt | hge
    · exact (ih (Nat.lt_succ_iff.mp hlt)).trans levels_subset_succ
    · have : m = k + 1 := Nat.le_antisymm h hge
      subst this
      exact Finset.Subset.refl _

theorem self_mem_levels {g : CapabilityGraph} {s : String} (n : Nat) :
    s ∈ levels g s n :=
  levels_mono (Nat.zero_le n) (by simp [levels])

theorem mem_levels_iff {g : CapabilityGraph} {s t : String} {n : Nat} :
    t ∈ levels g s n ↔ ∃ l, isWalkFrom g s t l = true ∧ l.length ≤ n := by
  induction n generalizing t with
  | zero =>
    simp only [levels, Finset.mem_singleton]
    constructor
    · rintro rfl
      exact ⟨[], by simp [isWalkFrom], by simp⟩
    · rintro ⟨l, hw, hlen⟩
      have : l = [] := List.length_eq_zero.mp (Nat.le_zero.mp hlen)
      subst this
      exact (beq_iff_eq.mp (by simpa [isWalkFrom] using hw)).symm
  | succ k ih =>
    constructor
    · intro h
      rcases mem_stepF.mp h with hin | ⟨u, hu, hedge⟩
      · obtain ⟨l, hw, hlen⟩ := ih.mp hin
        exact ⟨l, hw, hlen.trans (Nat.le_succ k)⟩
      · obtain ⟨l, hw, hlen⟩ := ih.mp hu
        refine ⟨l ++ [t], walk_append hw ?_, by simpa using Nat.succ_le_succ hlen⟩
        simp [isWalkFrom, hedge]
    · rintro ⟨l, hw, hlen⟩
      rcases List.eq_nil_or_concat l with rfl | ⟨l', v, rfl⟩
      · simp only [isWalkFrom, beq_iff_eq] at hw
        subst hw
        exact self_mem_levels _
      · simp only [List.concat_eq_append] at hw hlen
        obtain ⟨rfl, u, hwalk, hedge⟩ := walk_snoc hw
        have hul : u ∈ levels g s k := by
          apply ih.mpr
          exact ⟨l', hwalk, by simpa using Nat.succ_le_succ_iff.mp (by simpa using hlen)⟩
        exact mem_stepF.mpr (Or.inr ⟨u, hul, hedge⟩)

/-- Every breadth-first level is contained in the start node plus the set
of edge targets. -/
theorem levels_subset_universe {g : CapabilityGraph} {s : String} (n : Nat) :
    levels g s n ⊆ insert s (g.edges.map (fun e => e.1.2)).toFinset := by
  induction n with
  | zero => simp [levels]
  | succ k ih =>
    intro x hx
    rcases mem_stepF.mp hx with h | ⟨u, _, hedge⟩
    · exact ih h
    · simp only [hasEdge, List.any_eq_true, beq_iff_eq] at hedge
      obtain ⟨e, he, hkey⟩ := hedge
      apply Finset.mem_insert_of_mem
      simp only [List.mem_toFinset, List.mem_map]
      exact ⟨e, he, by rw [hkey]⟩

theorem levels_stab_of_fix {g : CapabilityGraph} {s : String} {n : Nat}
    (h : levels g s (n + 1) = levels g s n) :
    ∀ k, n ≤ k → levels g s k = levels g s n := by
  intro k hk
  induction k with
  | zero =>
    have : n = 0 := Nat.le_zero.mp hk
    subst this
    rfl
  | succ m ih =>
    rcases Nat.lt_or_ge n (m + 1) with hlt | hge
    · have hm : n ≤ m := Nat.lt_succ_iff.mp hlt
      have hm2 := ih hm
      calc levels g s (m + 1) = stepF g (levels g s m) := rfl
        _ = stepF g (levels g s n) := by rw [hm2]
        _ = levels g s (n + 1) := rfl
        _ = levels g s n := h
    · have hnm : n = m + 1 := Nat.le_antisymm hk hge
      rw [hnm]

theorem levels_card_grows {g : CapabilityGraph} {s : String} {n : Nat}
    (h : ∀ m < n, levels g s (m + 1) ≠ levels g s m) :
    n + 1 ≤ (levels g s n).card := by
  induction n with
  | zero => simp [levels]
  | succ k ih =>
    have hk : k + 1 ≤ (levels g s k).card := ih (fun m hm => h m (by omega))
    have hne : levels g s (k + 1) ≠ levels g s k := h k (by omega)
    have hss : levels g s k ⊂ levels g s (k + 1) :=
      Finset.ssubset_iff_subset_ne.mpr ⟨levels_subset_succ, fun he => hne he.symm⟩
    have := Finset.card_lt_card hss
    omega

/-- A fixpoint of the expansion step is reached within `reachBound`
iterations. -/
theorem exists_levels_fix (g : CapabilityGraph) (s : String) :
    ∃ n ≤ reachBound g, levels g s (n + 1) = levels g s n := by
  by_contra hcon
  push_neg at hcon
  have hgrow : ∀ m < reachBound g + 1, levels g s (m + 1) ≠ levels g s m := by
    intro m hm
    exact hcon m (by omega)
  have hcard := levels_card_grows hgrow
  have hsub := levels_subset_universe (g := g) (s := s) (reachBound g + 1)
  have hle := Finset.card_le_card hsub
  have hub : (insert s (g.edges.map (fun e => e.1.2)).toFinset).card
      ≤ 1 + g.edges.length := by
    calc (insert s (g.edges.map (fun e => e.1.2)).toFinset).card
        ≤ (g.edges.map (fun e => e.1.2)).toFinset.card + 1 :=
          Finset.card_insert_le _ _
      _ ≤ (g.edges.map (fun e => e.1.2)).length + 1 := by
          have := List.toFinset_card_le (g.edges.map (fun e => e.1.2))
          omega
      _ = 1 + g.edges.length := by simp [Nat.add_comm]
  simp only [reachBound] at hcard hle hub
  omega

theorem levels_subset_reachSet {g : CapabilityGraph} {s : String} (k : Nat) :
    levels g s k ⊆ reachSet g s := by
  obtain ⟨n, hn, hfix⟩ := exists_levels_fix g s
  have hstab := levels_stab_of_fix hfix
  rcases Nat.le_total k (reachBound g) with hk | hk
  · exact levels_mono hk
  · have h1 : levels g s k = levels g s n := hstab k (hn.trans hk)
    have h2 : levels g s (reachBound g) = levels g s n := hstab _ hn
    rw [reachSet, h1, h2]

/-- Soundness and completeness of the iterated expansion: membership in
the saturated level set is exactly reachability. -/
theorem mem_reachSet_iff {g : CapabilityGraph} {s t : String} :
    t ∈ reachSet g s ↔ Reachable g s t := by
  constructor
  · intro h
    obtain ⟨l, hw, _⟩ := mem_levels_iff.mp h
    exact ⟨l, hw⟩
  · rintro ⟨l, hw⟩
    exact levels_subset_reachSet l.length (mem_levels_iff.mpr ⟨l, hw, le_refl _⟩)

theorem leastLevelAux_some {g : CapabilityGraph} {s t : String} :
    ∀ {fuel k n : Nat}, leastLevelAux g s t fuel k = some n →
      k ≤ n ∧ t ∈ levels g s n ∧ ∀ m, k ≤ m → m < n → t ∉ levels g s m := by
  intro fuel
  induction fuel with
  | zero => intro k n h; simp [leastLevelAux] at h
  | succ f ih =>
    intro k n h
    simp only [leastLevelAux] at h
    by_cases hmem : t ∈ levels g s k
    · simp only [hmem, if_pos] at h
      cases h
      exact ⟨le_refl _, hmem, fun m h1 h2 => absurd (Nat.lt_of_le_of_lt h1 h2) (by omega)⟩
    · simp only [hmem, if_neg, if_false] at h
      obtain ⟨h1, h2, h3⟩ := ih h
      refine ⟨by omega, h2, fun m hm1 hm2 => ?_⟩
      rcases Nat.eq_or_lt_of_le hm1 with rfl | hlt
      · exact hmem
      · exact h3 m hlt hm2

theorem leastLevelAux_isSome {g : CapabilityGraph} {s t : String} :
    ∀ {fuel k m : Nat}, k ≤ m → m < k + fuel → t ∈ levels g s m →
      (leastLevelAux g s t fuel k).isSome := by
  intro fuel
  induction fuel with
  | zero => intro k m h1 h2 _; omega
  | succ f ih =>
    intro k m h1 h2 hmem
    simp only [leastLevelAux]
    by_cases hk : t ∈ levels g s k
    · simp [hk]
    · simp only [hk, if_neg, if_false]
      have hne : k ≠ m := fun he => hk (he ▸ hmem)
      exact ih (by omega) (by omega) hmem

/-- The breadth-first distance is attained and minimal. -/
theorem leastLevel_some {g : CapabilityGraph} {s t : String} {n : Nat}
    (h : leastLevel g s t = some n) :
    t ∈ levels g s n ∧ ∀ m < n, t ∉ levels g s m := by
  obtain ⟨_, h2, h3⟩ := leastLevelAux_some h
  exact ⟨h2, fun m hm => h3 m (Nat.zero_le m) hm⟩

theorem leastLevel_isSome_of_reachable {g : CapabilityGraph} {s t : String}
    (h : Reachable g s t) : (leastLevel g s t).isSome := by
  have hmem : t ∈ levels g s (reachBound g) := mem_reachSet_iff.mpr h
  exact leastLevelAux_isSome (Nat.zero_le _) (by omega) hmem

theorem leastLevel_none_not_reachable {g : CapabilityGraph} {s t : String}
    (h : leastLevel g s t = none) : ¬ Reachable g s t := by
  intro hr
  have := leastLevel_isSome_of_reachable hr
  rw [h] at this
  simp at this

theorem buildPath_sound {g : CapabilityGraph} {s : String} :
    ∀ {n : Nat} {t : String} {p : List String}, buildPath g s n t = some p →
      ∃ l, p = s :: l ∧ isWalkFrom g s t l = true ∧ l.length ≤ n := by
  intro n
  induction n with
  | zero =>
    intro t p h
    simp only [buildPath] at h
    by_cases ht : t = s
    · subst ht
      simp only [beq_self_eq_true, if_pos] at h
      cases h
      exact ⟨[], rfl, by simp [isWalkFrom], by simp⟩
    · simp [ht] at h
  | succ k ih =>
    intro t p h
    simp only [buildPath] at h
    cases hbp : buildPath g s k t with
    | some q =>
      rw [hbp] at h
      cases h
      obtain ⟨l, rfl, hw, hlen⟩ := ih hbp
      exact ⟨l, rfl, hw, hlen.trans (Nat.le_succ k)⟩
    | none =>
      rw [hbp] at h
      cases hfind : (predecessors g t).find? (fun u => decide (u ∈ levels g s k)) with
      | none => rw [hfind] at h; simp at h
      | some u =>
        rw [hfind] at h
        have hu : u ∈ predecessors g t := List.mem_of_find?_eq_some hfind
        have h2 : Option.map (fun p => p ++ [t]) (buildPath g s k u) = some p := h
        cases hbpu : buildPath g s k u with
        | none => rw [hbpu] at h2; simp at h2
        | some q =>
          rw [hbpu] at h2
          have h3 : q ++ [t] = p := by simpa using h2
          subst h3
          obtain ⟨l, rfl, hw, hlen⟩ := ih hbpu
          refine ⟨l ++ [t], by simp, walk_append hw ?_, by simp; omega⟩
          simp [isWalkFrom, mem_predecessors.mp hu]

theorem buildPath_total {g : CapabilityGraph} {s : String} :
    ∀ {n : Nat} {t : String}, t ∈ levels g s n → (buildPath g s n t).isSome := by
  intro n
  induction n with
  | zero =>
    intro t h
    simp only [levels, Finset.mem_singleton] at h
    subst h
    simp [buildPath]
  | succ k ih =>
    intro t h
    simp only [buildPath]
    cases hbp : buildPath g s k t with
    | some q => simp
    | none =>
      have htk : t ∉ levels g s k := by
        intro hmem
        have := ih hmem
        rw [hbp] at this
        simp at this
      rcases mem_stepF.mp h with hin | ⟨u, hu, hedge⟩
      · exact absurd hin htk
      · have hupred : u ∈ predecessors g t := mem_predecessors.mpr hedge
        have hfind : ((predecessors g t).find? (fun u => decide (u ∈ levels g s k))).isSome := by
          rw [List.find?_isSome]
          exact ⟨u, hupred, by simpa using hu⟩
        cases hf : (predecessors g t).find? (fun u => decide (u ∈ levels g s k)) with
        | none => rw [hf] at hfind; simp at hfind
        | some w =>
          have hwlev : w ∈ levels g s k := by
            have := List.find?_some hf
            simpa using this
          have := ih hwlev
          cases hbw : buildPath g s k w with
          | none => rw [hbw] at this; simp at this
          | some q =>
            show (Option.map (fun p => p ++ [t]) (buildPath g s k w)).isSome = true
            rw [hbw]
            simp

theorem reverseGraph_reverseGraph (g : CapabilityGraph) :
    reverseGraph (reverseGraph g) = g := by
  cases g with
  | mk nodes edges =>
    simp only [reverseGraph, List.map_map]
    congr 1
    apply List.map_id''
    intro e
    rfl

theorem hasEdge_reverse {g : CapabilityGraph} {u v : String} :
    hasEdge (reverseGraph g) u v = hasEdge g v u := by
  simp only [hasEdge, reverseGraph]
  rw [Bool.eq_iff_iff]
  simp only [List.any_map, List.any_eq_true, Function.comp, beq_iff_eq]
  constructor
  · rintro ⟨e, he, hk⟩
    exact ⟨e, he, by rw [Prod.ext_iff] at hk ⊢; exact ⟨hk.2, hk.1⟩⟩
  · rintro ⟨e, he, hk⟩
    exact ⟨e, he, by rw [Prod.ext_iff] at hk ⊢; exact ⟨hk.2, hk.1⟩⟩

theorem walk_reverse {g : CapabilityGraph} :
    ∀ {l : List String} {s t : String}, isWalkFrom g s t l = true →
      isWalkFrom (reverseGraph g) t s ((s :: l).dropLast.reverse) = true := by
  intro l
  induction l with
  | nil =>
    intro s t h
    simp only [isWalkFrom, beq_iff_eq] at h
    subst h
    simp [isWalkFrom]
  | cons v rest ih =>
    intro s t h
    simp only [isWalkFrom, Bool.and_eq_true] at h
    obtain ⟨hedge, hrest⟩ := h
    have hrev := ih hrest
    have hstep : isWalkFrom (reverseGraph g) v s [s] = true := by
      simp [isWalkFrom, hasEdge_reverse, hedge]
    have happ := walk_append hrev hstep
    have hshape : (v :: rest).dropLast.reverse ++ [s]
        = (s :: v :: rest).dropLast.reverse := by
      cases rest with
      | nil => simp
      | cons w ws => simp
    rwa [hshape] at happ

theorem reachable_reverse {g : CapabilityGraph} {s t : String} :
    Reachable (reverseGraph g) t s ↔ Reachable g s t := by
  constructor
  · rintro ⟨l, hw⟩
    have := walk_reverse hw
    rw [reverseGraph_reverseGraph] at this
    exact ⟨_, this⟩
  · rintro ⟨l, hw⟩
    exact ⟨_, walk_reverse hw⟩

/-- `nx.shortest_path` raises `NodeNotFound` when an endpoint is missing,
and `find_path` does not catch it. -/
theorem find_path_not_found {g : CapabilityGraph} {s t : String}
    (h : ¬(hasNode g s = true ∧ hasNode g t = true)) :
    find_path g s t = .error .nodeNotFound := by
  have hb : (hasNode g s && hasNode g t) = false := by
    cases hs : hasNode g s <;> cases ht : hasNode g t <;> simp_all
  simp [find_path, nx_shortest_path, hb]

/-- With both endpoints registered but no path, `NetworkXNoPath` is caught
and `find_path` returns the empty list. -/
theorem find_path_no_path {g : CapabilityGraph} {s t : String}
    (hs : hasNode g s = true) (ht : hasNode g t = true)
    (hnr : ¬ Reachable g s t) : find_path g s t = .ok [] := by
  have hll : leastLevel g s t = none := by
    cases h : leastLevel g s t with
    | none => rfl
    | some n =>
      obtain ⟨hmem, _⟩ := leastLevel_some h
      obtain ⟨l, hw, _⟩ := mem_levels_iff.mp hmem
      exact absurd ⟨l, hw⟩ hnr
  simp [find_path, nx_shortest_path, hs, ht, hll]

/-- With both endpoints registered and the target reachable, `find_path`
returns a path from `s` to `t` that is shortest by edge count. -/
theorem find_path_shortest {g : CapabilityGraph} {s t : String}
    (hs : hasNode g s = true) (ht : hasNode g t = true)
    (hr : Reachable g s t) :
    ∃ l, find_path g s t = .ok (s :: l) ∧ isWalkFrom g s t l = true ∧
      ∀ l2, isWalkFrom g s t l2 = true → l.length ≤ l2.length := by
  have hsome := leastLevel_isSome_of_reachable hr
  obtain ⟨n, hn⟩ := Option.isSome_iff_exists.mp hsome
  obtain ⟨hmem, hmin⟩ := leastLevel_some hn
  have hbp := buildPath_total hmem
  obtain ⟨p, hp⟩ := Option.isSome_iff_exists.mp hbp
  obtain ⟨l, rfl, hw, hlen⟩ := buildPath_sound hp
  refine ⟨l, ?_, hw, ?_⟩
  · simp [find_path, nx_shortest_path, hs, ht, hn, hp]
  · intro l2 hw2
    have hmem2 : t ∈ levels g s l2.length := mem_levels_iff.mpr ⟨l2, hw2, le_refl _⟩
    have hnle : n ≤ l2.length := by
      by_contra hlt
      exact hmin _ (not_le.mp hlt) hmem2
    omega

theorem detect_gap_noGap {g : CapabilityGraph} {s t : String}
    (hs : hasNode g s = true) (ht : hasNode g t = true)
    (hr : Reachable g s t) : detect_gap g s t = .ok .noGap := by
  obtain ⟨l, hfp, _, _⟩ := find_path_shortest hs ht hr
  simp [detect_gap, hfp]

theorem detect_gap_gap {g : CapabilityGraph} {s t : String}
    (hs : hasNode g s = true) (ht : hasNode g t = true)
    (hnr : ¬ Reachable g s t) :
    detect_gap g s t
      = .ok (.gap s t (forward_search g s) (backward_search g t)) := by
  simp [detect_gap, find_path_no_path hs ht hnr]

theorem synth_prompt_isOk {g : CapabilityGraph} {start target : String}
    {ss ts : JValue} (fb cc : Option String)
    (hs : nodeSchemaLookup g start = .ok ss)
    (ht : nodeSchemaLookup g target = .ok ts) :
    ∃ p, synth_prompt g start target fb cc = .ok p := by
  simp only [synth_prompt, hs, ht, bind, Except.bind, pure, Except.pure]
  by_cases h : (pyTruthy fb && pyTruthy cc) = true
  · rw [if_pos h]; exact ⟨_, rfl⟩
  · rw [if_neg h]; exact ⟨_, rfl⟩

theorem synth_prompt_base {g : CapabilityGraph} {start target : String}
    {ss ts : JValue} {fb cc : Option String}
    (hs : nodeSchemaLookup g start = .ok ss)
    (ht : nodeSchemaLookup g target = .ok ts)
    (hft : (pyTruthy fb && pyTruthy cc) = false) :
    synth_prompt g start target fb cc = .ok (mkBasePrompt start target ss ts) := by
  simp only [synth_prompt, hs, ht, bind, Except.bind, pure, Except.pure]
  rw [if_neg (by simp [hft])]


theorem synth_prompt_feedback {g : CapabilityGraph} {start target : String}
    {ss ts : JValue} {e c : String}
    (hs : nodeSchemaLookup g start = .ok ss)
    (ht : nodeSchemaLookup g target = .ok ts)
    (he : e ≠ "") (hc : c ≠ "") :
    synth_prompt g start target (some e) (some c)
      = .ok (mkBasePrompt start target ss ts ++ mkFeedbackSection c e) := by
  simp only [synth_prompt, hs, ht, bind, Except.bind, pure, Except.pure]
  rw [if_pos (by simp [pyTruthy, he, hc])]
  rfl

/-- Under a generation/execution pair that fails on every attempt, every
remaining loop iteration sends exactly one more prompt. -/
theorem solveLoop_allfail_length {ctx : AgentCtx} {g : CapabilityGraph}
    {start target : String} {input : JValue} {ss ts : JValue} {f : String → String}
    (hs : nodeSchemaLookup g start = .ok ss)
    (ht : nodeSchemaLookup g target = .ok ts)
    (hfail : ∀ c, ctx.runExec c input = .error (f c)) :
    ∀ (fuel attempt mr : Nat) (fb cc : Option String) (prompts : List String),
      attempt + fuel = mr + 1 →
      (solveLoop ctx g start target input mr fuel attempt fb cc prompts).prompts.length
        = prompts.length + fuel := by
  intro fuel
  induction fuel with
  | zero =>
    intro attempt mr fb cc prompts _
    simp [solveLoop]
  | succ k ih =>
    intro attempt mr fb cc prompts hinv
    obtain ⟨p, hp⟩ := synth_prompt_isOk fb cc hs ht
    by_cases hmr : attempt = mr
    · have hk : k = 0 := by omega
      subst hk
      subst hmr
      simp [solveLoop, hp, hfail]
    · have hne : (attempt == mr) = false := by simpa using hmr
      simp only [solveLoop, hp, hfail, hne, Bool.false_eq_true, if_false]
      rw [ih (attempt + 1) mr _ _ _ (by omega)]
      simp
      omega

/-- C1: when the generate→execute→verify cycle fails on every attempt,
`solve_task` makes exactly `max_retries + 1` attempts (one generate call
each); with `max_retries = 2` that is exactly 3 attempts, after which it
raises the terminal `RuntimeError` (the spec's `SynthesisExhausted`)
whose message carries the last attempt's failure text. -/
theorem solve_task_exhausts_after_max_retries
    (ctx : AgentCtx) (g : CapabilityGraph) (start target : String) (input : JValue)
    (ss ts : JValue) (f : String → String)
    (hn1 : hasNode g start = true) (hn2 : hasNode g target = true)
    (hnr : ¬ Reachable g start target)
    (hs : nodeSchemaLookup g start = .ok ss)
    (ht : nodeSchemaLookup g target = .ok ts)
    (hfail : ∀ c, ctx.runExec c input = .error (f c)) :
    (∀ mr, (solve_task ctx g start target input mr).prompts.length = mr + 1) ∧
    ∃ p0 p1 p2,
      solve_task ctx g start target input 2
        = ⟨.error (.synthesisExhausted (exhaustMsg 2
            (f (extract_code_block (ctx.gen 2 p2))))), [p0, p1, p2]⟩ := by
  have hdg := detect_gap_gap hn1 hn2 hnr
  constructor
  · intro mr
    simp only [solve_task, hdg]
    have := solveLoop_allfail_length hs ht hfail (mr + 1) 0 mr none none [] (by omega)
    simpa using this
  · have hb : synth_prompt g start target none none
        = .ok (mkBasePrompt start target ss ts) :=
      synth_prompt_base hs ht (by simp [pyTruthy])
    obtain ⟨p1, hp1⟩ := synth_prompt_isOk
      (some (f (extract_code_block (ctx.gen 0 (mkBasePrompt start target ss ts)))))
      (some (extract_code_block (ctx.gen 0 (mkBasePrompt start target ss ts)))) hs ht
    obtain ⟨p2, hp2⟩ := synth_prompt_isOk
      (some (f (extract_code_block (ctx.gen 1 p1))))
      (some (extract_code_block (ctx.gen 1 p1))) hs ht
    refine ⟨mkBasePrompt start target ss ts, p1, p2, ?_⟩
    simp only [solve_task, hdg, solveLoop, hb, hfail, hp1, hp2, List.length_nil,
      List.nil_append, List.length_cons, List.singleton_append, List.cons_append,
      Nat.zero_add]
    norm_num

/-- C1 witness: the hypotheses are satisfiable on the concrete two-type
graph with an always-failing collaborator. -/
theorem solve_task_exhausts_after_max_retries_witness :
    (∀ mr, (solve_task ctxFail gW "A" "B" JValue.null mr).prompts.length = mr + 1) ∧
    ∃ p0 p1 p2,
      solve_task ctxFail gW "A" "B" JValue.null 2
        = ⟨.error (.synthesisExhausted (exhaustMsg 2
            (extract_code_block (ctxFail.gen 2 p2) |> (fun _ => "boom")))), [p0, p1, p2]⟩ :=
  solve_task_exhausts_after_max_retries ctxFail gW "A" "B" JValue.null
    (.obj [("type", .str "string")]) (.obj [("type", .str "string")])
    (fun _ => "boom") rfl rfl
    (fun h => absurd (mem_reachSet_iff.mpr h) (by decide))
    rfl rfl (fun _ => rfl)

/-- C2: with invalid code on attempt 0 and valid code on attempt 1 (and
`max_retries ≥ 1`, no caller predicate, local runner), `solve_task`
succeeds, exactly two generate calls are made, and the second prompt
contains both the first attempt's extracted code and its error text. -/
theorem solve_task_second_attempt_feedback
    (ctx : AgentCtx) (g : CapabilityGraph) (start target : String) (input : JValue)
    (ss ts : JValue) (p0 c0 e0 p1 c1 : String) (v : JValue) (mr : Nat)
    (hn1 : hasNode g start = true) (hn2 : hasNode g target = true)
    (hnr : ¬ Reachable g start target)
    (hs : nodeSchemaLookup g start = .ok ss)
    (ht : nodeSchemaLookup g target = .ok ts)
    (hp0 : p0 = mkBasePrompt start target ss ts)
    (hc0 : c0 = extract_code_block (ctx.gen 0 p0))
    (hx0 : ctx.runExec c0 input = .error e0)
    (he0 : e0 ≠ "") (hc0ne : c0 ≠ "")
    (hp1 : p1 = p0 ++ mkFeedbackSection c0 e0)
    (hc1 : c1 = extract_code_block (ctx.gen 1 p1))
    (hx1 : ctx.runExec c1 input = .ok v)
    (hvfn : ctx.verification_fn = none)
    (hmode : ctx.mode = .localMode)
    (hmr : 1 ≤ mr) :
    solve_task ctx g start target input mr = ⟨.ok v, [p0, p1]⟩ ∧
    (∃ a b, p1 = a ++ c0 ++ b) ∧ (∃ a b, p1 = a ++ e0 ++ b) := by
  have hdg := detect_gap_gap hn1 hn2 hnr
  have hb : synth_prompt g start target none none
      = .ok (mkBasePrompt start target ss ts) :=
    synth_prompt_base hs ht (by simp [pyTruthy])
  have hfb : synth_prompt g start target (some e0) (some c0)
      = .ok (mkBasePrompt start target ss ts ++ mkFeedbackSection c0 e0) :=
    synth_prompt_feedback hs ht he0 hc0ne
  obtain ⟨k, rfl⟩ : ∃ k, mr = k + 1 := ⟨mr - 1, by omega⟩
  have hne0 : (0 == k + 1) = false := by simp
  subst hp0
  subst hc0
  subst hp1
  subst hc1
  refine ⟨?_, ?_, ?_⟩
  · simp only [solve_task, hdg, solveLoop, hb, hx0, hne0, Bool.false_eq_true, if_false,
      List.length_nil, List.nil_append, hfb, List.length_cons, Nat.zero_add, hx1,
      verifyStep, hvfn, hmode, List.singleton_append]
  · exact ⟨mkBasePrompt start target ss ts ++ "\n\nPREVIOUS ATTEMPT FAILED.\nCODE:\n",
      "\n\nERROR:\n" ++ e0 ++ "\n\nFix the code to resolve the error.\n",
      by simp [mkFeedbackSection, String.append_assoc]⟩
  · exact ⟨mkBasePrompt start target ss ts ++ "\n\nPREVIOUS ATTEMPT FAILED.\nCODE:\n"
        ++ extract_code_block (ctx.gen 0 (mkBasePrompt start target ss ts)) ++ "\n\nERROR:\n",
      "\n\nFix the code to resolve the error.\n",
      by simp [mkFeedbackSection, String.append_assoc]⟩

/-- C2 witness: concrete run with `ctxRetry` on the two-type graph. -/
theorem solve_task_second_attempt_feedback_witness :
    solve_task ctxRetry gW "A" "B" JValue.null 1
      = ⟨.ok (.str "done"),
         [mkBasePrompt "A" "B" (.obj [("type", .str "string")]) (.obj [("type", .str "string")]),
          mkBasePrompt "A" "B" (.obj [("type", .str "string")]) (.obj [("type", .str "string")])
            ++ mkFeedbackSection "bad" "boom"]⟩ ∧
    (∃ a b, mkBasePrompt "A" "B" (.obj [("type", .str "string")]) (.obj [("type", .str "string")])
        ++ mkFeedbackSection "bad" "boom" = a ++ "bad" ++ b) ∧
    (∃ a b, mkBasePrompt "A" "B" (.obj [("type", .str "string")]) (.obj [("type", .str "string")])
        ++ mkFeedbackSection "bad" "boom" = a ++ "boom" ++ b) :=
  solve_task_second_attempt_feedback ctxRetry gW "A" "B" JValue.null
    (.obj [("type", .str "string")]) (.obj [("type", .str "string")])
    (mkBasePrompt "A" "B" (.obj [("type", .str "string")]) (.obj [("type", .str "string")]))
    "bad" "boom"
    (mkBasePrompt "A" "B" (.obj [("type", .str "string")]) (.obj [("type", .str "string")])
      ++ mkFeedbackSection "bad" "boom")
    "good" (.str "done") 1
    rfl rfl
    (fun h => absurd (mem_reachSet_iff.mpr h) (by decide))
    rfl rfl rfl rfl rfl (by decide) (by decide) rfl rfl rfl rfl rfl (by omega)

/-- C10: with no caller-supplied verification predicate and the trusted
in-process runner (local mode), no verification step runs at all: the
first successfully executed value is returned as-is, even when it
violates the target type's schema. -/
theorem solve_task_local_skips_verification
    (ctx : AgentCtx) (g : CapabilityGraph) (start target : String) (input : JValue)
    (ss ts : JValue) (v : JValue)
    (hn1 : hasNode g start = true) (hn2 : hasNode g target = true)
    (hnr : ¬ Reachable g start target)
    (hs : nodeSchemaLookup g start = .ok ss)
    (ht : nodeSchemaLookup g target = .ok ts)
    (hx : ctx.runExec (extract_code_block (ctx.gen 0 (mkBasePrompt start target ss ts)))
            input = .ok v)
    (hvfn : ctx.verification_fn = none)
    (hmode : ctx.mode = .localMode)
    (hbad : validate_schema v ts = false) :
    ∀ mr, solve_task ctx g start target input mr
      = ⟨.ok v, [mkBasePrompt start target ss ts]⟩ := by
  intro mr
  have hdg := detect_gap_gap hn1 hn2 hnr
  have hb : synth_prompt g start target none none
      = .ok (mkBasePrompt start target ss ts) :=
    synth_prompt_base hs ht (by simp [pyTruthy])
  simp only [solve_task, hdg, solveLoop, hb, List.length_nil, List.nil_append, hx,
    verifyStep, hvfn, hmode]

/-- C10 witness: a value violating the `{type: string}` target schema is
returned unchecked in local mode. -/
theorem solve_task_local_skips_verification_witness :
    solve_task ctxPlain gW "A" "B" JValue.null 3
      = ⟨.ok (.int 3),
         [mkBasePrompt "A" "B" (.obj [("type", .str "string")]) (.obj [("type", .str "string")])]⟩ :=
  solve_task_local_skips_verification ctxPlain gW "A" "B" JValue.null
    (.obj [("type", .str "string")]) (.obj [("type", .str "string")]) (.int 3)
    rfl rfl
    (fun h => absurd (mem_reachSet_iff.mpr h) (by decide))
    rfl rfl rfl rfl rfl
    (by simp [validate_schema, schemaTag, JValue.get?, jget, pyIsStr]) 3

/-- C4: errors outside the synthesize→execute→verify cycle are surfaced
immediately, with no retry and no generate call: an unregistered start or
target type makes `solve_task` raise `NodeNotFound` from gap detection
before any attempt (regardless of `max_retries`), and an unknown provider
name makes `LLMFactory.create_provider` raise `ValueError` immediately.
(Persistence lives in `save_to_json`/`load_from_json`, which the solve
loop never invokes.) -/
theorem immediate_errors_not_retried :
    (∀ (ctx : AgentCtx) (g : CapabilityGraph) (start target : String)
       (input : JValue) (mr : Nat),
       ¬(hasNode g start = true ∧ hasNode g target = true) →
       solve_task ctx g start target input mr = ⟨.error .nodeNotFound, []⟩) ∧
    (∀ p : String, pyLower p ≠ "openai" → pyLower p ≠ "ollama" →
       create_provider p = .error ("Unknown provider type: " ++ p)) := by
  constructor
  · intro ctx g start target input mr h
    simp only [solve_task, detect_gap, find_path_not_found h]
  · intro p h1 h2
    simp [create_provider, h1, h2]

/-- C4 witness: unregistered types on the empty graph and the provider
name `"anthropic"`. -/
theorem immediate_errors_not_retried_witness :
    solve_task ctxFail emptyCG "A" "B" JValue.null 3 = ⟨.error .nodeNotFound, []⟩ ∧
    create_provider "anthropic" = .error "Unknown provider type: anthropic" :=
  ⟨immediate_errors_not_retried.1 ctxFail emptyCG "A" "B" JValue.null 3 (by decide),
   immediate_errors_not_retried.2 "anthropic" (by decide) (by decide)⟩

/-- C3: a registered direct edge makes `detect_gap` report no gap;
removing exactly that edge (same nodes, all other edges kept) with no
other path left flips the result to a gap whose source and target are the
queried pair. -/
theorem detect_gap_direct_edge_flip
    (g g2 : CapabilityGraph) (s t : String)
    (hedge : hasEdge g s t = true)
    (hn1 : hasNode g s = true) (hn2 : hasNode g t = true)
    (hnodes : g2.nodes = g.nodes)
    (hedges : g2.edges = g.edges.filter (fun e => !(e.1 == (s, t))))
    (hnr : ¬ Reachable g2 s t) :
    detect_gap g s t = .ok .noGap ∧
    detect_gap g2 s t
      = .ok (.gap s t (forward_search g2 s) (backward_search g2 t)) := by
  constructor
  · exact detect_gap_noGap hn1 hn2 ⟨[t], by simp [isWalkFrom, hedge]⟩
  · have hn1' : hasNode g2 s = true := by rw [hasNode, hnodes]; exact hn1
    have hn2' : hasNode g2 t = true := by rw [hasNode, hnodes]; exact hn2
    exact detect_gap_gap hn1' hn2' hnr

/-- C3 witness: the two-type graph with the direct edge, then with it
removed. -/
theorem detect_gap_direct_edge_flip_witness :
    detect_gap gWE "A" "B" = .ok .noGap ∧
    detect_gap ⟨gWE.nodes, gWE.edges.filter (fun e => !(e.1 == ("A", "B")))⟩ "A" "B"
      = .ok (.gap "A" "B"
          (forward_search ⟨gWE.nodes, gWE.edges.filter (fun e => !(e.1 == ("A", "B")))⟩ "A")
          (backward_search ⟨gWE.nodes, gWE.edges.filter (fun e => !(e.1 == ("A", "B")))⟩ "B")) :=
  detect_gap_direct_edge_flip gWE
    ⟨gWE.nodes, gWE.edges.filter (fun e => !(e.1 == ("A", "B")))⟩ "A" "B"
    rfl rfl rfl rfl rfl
    (fun h => absurd (mem_reachSet_iff.mpr h) (by decide))

/-- C8: whenever both endpoints are registered (the situation in which
`detect_gap` computes them), `forward_search` contains the start,
`backward_search` contains the end, and the two sets intersect exactly
when a directed path exists. -/
theorem forward_backward_search_spec (g : CapabilityGraph) (s t : String)
    (hs : hasNode g s = true) (ht : hasNode g t = true) :
    s ∈ forward_search g s ∧ t ∈ backward_search g t ∧
    ((∃ x, x ∈ forward_search g s ∧ x ∈ backward_search g t) ↔ Reachable g s t) := by
  have hsmem : s ∈ forward_search g s := by
    rw [forward_search, if_pos hs]
    exact mem_reachSet_iff.mpr ⟨[], by simp [isWalkFrom]⟩
  have htmem : t ∈ backward_search g t := by
    rw [backward_search, if_pos ht]
    exact mem_reachSet_iff.mpr ⟨[], by simp [isWalkFrom]⟩
  refine ⟨hsmem, htmem, ?_, ?_⟩
  · rintro ⟨x, hxf, hxb⟩
    rw [forward_search, if_pos hs] at hxf
    rw [backward_search, if_pos ht] at hxb
    obtain ⟨l1, hw1⟩ := mem_reachSet_iff.mp hxf
    obtain ⟨l2, hw2⟩ := reachable_reverse.mp (mem_reachSet_iff.mp hxb)
    exact ⟨l1 ++ l2, walk_append hw1 hw2⟩
  · intro hr
    refine ⟨t, ?_, htmem⟩
    rw [forward_search, if_pos hs]
    exact mem_reachSet_iff.mpr hr

/-- C8 witness: applied on the concrete edge graph (path exists) — both
membership facts hold and the intersection is inhabited. -/
theorem forward_backward_search_spec_witness :
    "A" ∈ forward_search gWE "A" ∧ "B" ∈ backward_search gWE "B" ∧
    ((∃ x, x ∈ forward_search gWE "A" ∧ x ∈ backward_search gWE "B")
      ↔ Reachable gWE "A" "B") :=
  forward_backward_search_spec gWE "A" "B" rfl rfl

/-- C6 counterexample: `add_tool` on the empty graph (both endpoints
unregistered) does not fail and does not leave the graph unchanged — it
silently creates both endpoint nodes and registers the edge, contrary to
the claimed `GraphLookupError`. -/
theorem add_tool_unregistered_counterexample :
    hasNode emptyCG "A" = false ∧ hasNode emptyCG "B" = false ∧
    add_tool emptyCG tAB = ⟨[("A", none), ("B", none)], [(("A", "B"), tAB)]⟩ ∧
    hasEdge (add_tool emptyCG tAB) "A" "B" = true :=
  ⟨rfl, rfl, rfl, rfl⟩

theorem addNodeBare_edges (g : CapabilityGraph) (n : String) :
    (addNodeBare g n).edges = g.edges := by
  unfold addNodeBare
  split <;> rfl

theorem hasNode_addNodeBare (g : CapabilityGraph) (m n : String) :
    hasNode (addNodeBare g m) n = (hasNode g n || n == m) := by
  unfold addNodeBare
  split
  · rename_i h
    by_cases hm : n = m
    · subst hm
      simp [h]
    · simp [hm]
  · simp only [hasNode, List.any_append, List.any_cons, List.any_nil]
    by_cases hm : n = m
    · subst hm
      simp
    · have h1 : (m == n) = false := beq_eq_false_iff_ne.mpr (fun hc => hm hc.symm)
      have h2 : (n == m) = false := beq_eq_false_iff_ne.mpr hm
      simp [h1, h2]

theorem hasNode_mono_addNodeBare (g : CapabilityGraph) (m n : String)
    (h : hasNode g n = true) : hasNode (addNodeBare g m) n = true := by
  rw [hasNode_addNodeBare, h, Bool.true_or]

theorem getSchema_addNodeBare_of_hasNode (g : CapabilityGraph) (m n : String)
    (h : hasNode g n = true) :
    getSchema (addNodeBare g m) n = getSchema g n := by
  unfold addNodeBare
  split
  · rfl
  · simp only [getSchema, List.find?_append]
    have hfind : (g.nodes.find? (fun p => p.1 == n)).isSome := by
      rw [List.find?_isSome]
      simp only [hasNode, List.any_eq_true] at h
      exact h
    cases hf : g.nodes.find? (fun p => p.1 == n) with
    | none => rw [hf] at hfind; simp at hfind
    | some x => simp

theorem getTool_upsert_self (edges : List ((String × String) × Tool))
    (key : String × String) (t : Tool)
    (h : edges.any (fun e => e.1 == key) = true) :
    ((edges.map (fun e => if e.1 == key then (e.1, t) else e)).find?
        (fun e => e.1 == key)).map (fun e => e.2) = some t := by
  induction edges with
  | nil => simp at h
  | cons e rest ih =>
    by_cases hk : e.1 = key
    · simp [hk]
    · have hk' : (e.1 == key) = false := by simpa using hk
      simp only [List.any_cons, hk', Bool.false_or] at h
      simp only [List.map_cons, hk', Bool.false_eq_true, if_false, List.find?_cons, hk']
      exact ih h

theorem getTool_upsert_other (edges : List ((String × String) × Tool))
    (key key2 : String × String) (t : Tool) (hne : key2 ≠ key) :
    ((edges.map (fun e => if e.1 == key then (e.1, t) else e)).find?
        (fun e => e.1 == key2)).map (fun e => e.2)
      = (edges.find? (fun e => e.1 == key2)).map (fun e => e.2) := by
  induction edges with
  | nil => simp
  | cons e rest ih =>
    by_cases hk : e.1 = key
    · have h3 : (key == key2) = false := beq_eq_false_iff_ne.mpr (fun hc => hne hc.symm)
      simp only [List.map_cons, hk, beq_self_eq_true, if_true, List.find?_cons, h3,
        Bool.false_eq_true, if_false]
      exact ih
    · have hk' : (e.1 == key) = false := by simpa using hk
      simp only [List.map_cons, hk', Bool.false_eq_true, if_false, List.find?_cons]
      by_cases h2 : e.1 = key2
      · simp [h2]
      · have h2' : (e.1 == key2) = false := by simpa using h2
        simp only [h2', Bool.false_eq_true, if_false]
        exact ih

/-- C6 amended: `add_tool` never raises — it registers (or overwrites)
the edge under `(input_type, output_type)`, silently creating any
unregistered endpoint as a schema-less node, and leaves every other node
(and its schema) and every other edge unchanged. -/
theorem add_tool_silently_creates_endpoints (g : CapabilityGraph) (t : Tool) :
    hasNode (add_tool g t) t.input_type = true ∧
    hasNode (add_tool g t) t.output_type = true ∧
    getTool (add_tool g t) t.input_type t.output_type = some t ∧
    (∀ n, hasNode (add_tool g t) n
        = (hasNode g n || n == t.input_type || n == t.output_type)) ∧
    (∀ n, hasNode g n = true → getSchema (add_tool g t) n = getSchema g n) ∧
    (∀ u v, ¬(u = t.input_type ∧ v = t.output_type) →
        getTool (add_tool g t) u v = getTool g u v) := by
  have hnodes : ∀ n, hasNode (add_tool g t) n
      = (hasNode g n || n == t.input_type || n == t.output_type) := by
    intro n
    have h2 : hasNode (addNodeBare (addNodeBare g t.input_type) t.output_type) n
        = (hasNode g n || n == t.input_type || n == t.output_type) := by
      rw [hasNode_addNodeBare, hasNode_addNodeBare]
    simp only [add_tool]
    split <;> exact h2
  refine ⟨?_, ?_, ?_, hnodes, ?_, ?_⟩
  · rw [hnodes]; simp
  · rw [hnodes]; simp
  · simp only [add_tool]
    split
    · rename_i h
      exact getTool_upsert_self _ _ _ h
    · rename_i h
      simp only [getTool, List.find?_append]
      rw [Bool.not_eq_true] at h
      have hnone : (addNodeBare (addNodeBare g t.input_type) t.output_type).edges.find?
          (fun e => e.1 == (t.input_type, t.output_type)) = none := by
        rw [List.find?_eq_none]
        intro e he hbe
        have htrue : hasEdge (addNodeBare (addNodeBare g t.input_type) t.output_type)
            t.input_type t.output_type = true := List.any_eq_true.mpr ⟨e, he, hbe⟩
        rw [htrue] at h
        exact Bool.noConfusion h
      rw [hnone]
      simp
  · intro n hn
    have hs1 : getSchema (addNodeBare (addNodeBare g t.input_type) t.output_type) n
        = getSchema g n := by
      rw [getSchema_addNodeBare_of_hasNode _ _ _ (hasNode_mono_addNodeBare _ _ _ hn),
        getSchema_addNodeBare_of_hasNode _ _ _ hn]
    simp only [add_tool]
    split <;> exact hs1
  · intro u v huv
    have hne : (u, v) ≠ (t.input_type, t.output_type) := by
      intro hc
      rw [Prod.ext_iff] at hc
      exact huv ⟨hc.1, hc.2⟩
    have hbase : getTool (addNodeBare (addNodeBare g t.input_type) t.output_type) u v
        = getTool g u v := by
      unfold getTool
      rw [addNodeBare_edges, addNodeBare_edges]
    simp only [add_tool]
    split
    · show ((((addNodeBare (addNodeBare g t.input_type) t.output_type).edges.map
          (fun e => if e.1 == (t.input_type, t.output_type) then (e.1, t) else e)).find?
          (fun e => e.1 == (u, v))).map (fun e => e.2)) = getTool g u v
      rw [getTool_upsert_other _ _ _ _ hne]
      exact hbase
    · show ((((addNodeBare (addNodeBare g t.input_type) t.output_type).edges
          ++ [((t.input_type, t.output_type), t)]).find?
          (fun e => e.1 == (u, v))).map (fun e => e.2)) = getTool g u v
      rw [List.find?_append]
      have hlast : ([((t.input_type, t.output_type), t)].find?
          (fun e => e.1 == (u, v))) = none := by
        have hb : ((t.input_type, t.output_type) == (u, v)) = false :=
          beq_eq_false_iff_ne.mpr (fun hc => hne hc.symm)
        simp [List.find?_cons, hb]
      rw [hlast]
      cases hff : ((addNodeBare (addNodeBare g t.input_type) t.output_type).edges.find?
          (fun e => e.1 == (u, v))) with
      | none =>
        have hbase2 : Option.map (fun e => e.2) (List.find? (fun e => e.1 == (u, v))
            (addNodeBare (addNodeBare g t.input_type) t.output_type).edges)
            = getTool g u v := hbase
        rw [hff] at hbase2
        simpa using hbase2
      | some x =>
        have hbase2 : Option.map (fun e => e.2) (List.find? (fun e => e.1 == (u, v))
            (addNodeBare (addNodeBare g t.input_type) t.output_type).edges)
            = getTool g u v := hbase
        rw [hff] at hbase2
        simpa using hbase2

/-- C6 amended witness: adding a tool between one registered and one
unregistered endpoint. -/
theorem add_tool_silently_creates_endpoints_witness :
    hasNode (add_tool gW tAB) "A" = true ∧
    hasNode (add_tool gW tAB) "B" = true ∧
    getTool (add_tool gW tAB) "A" "B" = some tAB ∧
    (∀ n, hasNode (add_tool gW tAB) n = (hasNode gW n || n == "A" || n == "B")) ∧
    (∀ n, hasNode gW n = true → getSchema (add_tool gW tAB) n = getSchema gW n) ∧
    (∀ u v, ¬(u = "A" ∧ v = "B") → getTool (add_tool gW tAB) u v = getTool gW u v) :=
  add_tool_silently_creates_endpoints gW tAB

/-- C7 counterexample: with an unregistered endpoint, `find_path` does
not return an empty sequence — it raises networkx `NodeNotFound`
(only `NetworkXNoPath` is caught). -/
theorem find_path_missing_node_counterexample :
    find_path emptyCG "A" "B" = .error .nodeNotFound ∧
    find_path emptyCG "A" "B" ≠ .ok [] := by
  constructor
  · rfl
  · intro h
    have h2 : (Except.error NxError.nodeNotFound : Except NxError (List String))
        = .ok [] := h
    exact Except.noConfusion h2

/-- C7 amended: `find_path` returns an empty sequence (without error)
only when both endpoints are registered and the end is unreachable; an
unregistered endpoint raises `NodeNotFound`; when a path exists it
returns a path from start to end that is shortest by edge count. -/
theorem find_path_amended (g : CapabilityGraph) (s t : String) :
    (¬(hasNode g s = true ∧ hasNode g t = true) →
        find_path g s t = .error .nodeNotFound) ∧
    (hasNode g s = true → hasNode g t = true → ¬ Reachable g s t →
        find_path g s t = .ok []) ∧
    (hasNode g s = true → hasNode g t = true → Reachable g s t →
        ∃ l, find_path g s t = .ok (s :: l) ∧ isWalkFrom g s t l = true ∧
          ∀ l2, isWalkFrom g s t l2 = true → l.length ≤ l2.length) :=
  ⟨find_path_not_found, fun hs ht hnr => find_path_no_path hs ht hnr,
   fun hs ht hr => find_path_shortest hs ht hr⟩

/-- C7 amended witness: all three branches at concrete graphs — missing
nodes, registered-but-unreachable, and a direct edge. -/
theorem find_path_amended_witness :
    find_path emptyCG "A" "B" = .error .nodeNotFound ∧
    find_path gW "A" "B" = .ok [] ∧
    (∃ l, find_path gWE "A" "B" = .ok ("A" :: l) ∧ isWalkFrom gWE "A" "B" l = true ∧
      ∀ l2, isWalkFrom gWE "A" "B" l2 = true → l.length ≤ l2.length) :=
  ⟨(find_path_amended emptyCG "A" "B").1 (by decide),
   (find_path_amended gW "A" "B").2.1 rfl rfl
     (fun h => absurd (mem_reachSet_iff.mpr h) (by decide)),
   (find_path_amended gWE "A" "B").2.2 rfl rfl ⟨["B"], by decide⟩⟩

theorem isObjSchema_iff {o : Option JValue} :
    isObjSchema o = true ↔ ∃ fs, o = some (.obj fs) := by
  cases o with
  | none => simp [isObjSchema]
  | some v => cases v <;> simp [isObjSchema]

theorem mapM_str_ok (k : String) (l : List String) :
    (l.map JValue.str).mapM (fun x => match x with
      | .str s => Except.ok s
      | _ => Except.error ("validation error for field " ++ k)) = Except.ok l := by
  induction l with
  | nil => rfl
  | cons a rest ih =>
    simp only [List.map_cons, List.mapM_cons, ih, bind, Except.bind, pure, Except.pure]

theorem optStrList_strs {fs : List (String × JValue)} {k : String} {l : List String}
    (h : jget fs k = some (.arr (l.map JValue.str))) : optStrList fs k = .ok l := by
  simp only [optStrList, h]
  exact mapM_str_ok k l

theorem parseTool_toolToJson (t : Tool) : parseTool (toolToJson t) = .ok t := by
  cases t with
  | mk name input_type output_type constraints code =>
    have hc : optStrList [("name", JValue.str name), ("input_type", JValue.str input_type),
        ("output_type", JValue.str output_type),
        ("constraints", JValue.arr (constraints.map JValue.str)),
        ("code", JValue.str code)] "constraints" = .ok constraints :=
      optStrList_strs (by simp [jget, List.find?])
    simp only [parseTool, toolToJson, reqStr, optStr, jget, List.find?, bind, Except.bind,
      pure, Except.pure, hc]
    simp

theorem addNodeBare_of_hasNode {g : CapabilityGraph} {n : String}
    (h : hasNode g n = true) : addNodeBare g n = g := by
  unfold addNodeBare
  rw [if_pos h]

theorem except_ok_bind {ε α β : Type} (x : α) (f : α → Except ε β) :
    (Except.ok x >>= f) = f x := rfl

theorem except_pure_bind {ε α β : Type} (x : α) (f : α → Except ε β) :
    ((pure x : Except ε α) >>= f) = f x := rfl

theorem hasNode_append_nodes (nodes : List (String × Option JValue))
    (p : String × Option JValue) (edges : List ((String × String) × Tool)) (n : String) :
    hasNode ⟨nodes ++ [p], edges⟩ n = (hasNode ⟨nodes, edges⟩ n || p.1 == n) := by
  simp [hasNode, List.any_append]

/-- Loading the serialized node list `add_type`s every node back, in
order. -/
theorem load_nodes_fold :
    ∀ (nodes : List (String × Option JValue)) (g0 : CapabilityGraph),
      (∀ p ∈ nodes, isObjSchema p.2 = true) →
      (∀ p ∈ nodes, hasNode g0 p.1 = false) →
      (nodes.map Prod.fst).Nodup →
      (nodes.map (fun p =>
          JValue.obj [("name", .str p.1), ("schema", p.2.getD (.obj []))])).foldlM
          (fun g nv => do
            let p ← parseNodeEntry nv
            pure (add_type g p.1 p.2)) g0
        = Except.ok ⟨g0.nodes ++ nodes, g0.edges⟩ := by
  intro nodes
  induction nodes with
  | nil =>
    intro g0 _ _ _
    simp only [List.map_nil, List.foldlM_nil, List.append_nil]
    rfl
  | cons p rest ih =>
    intro g0 hobj hnew hnodup
    obtain ⟨fs, hp2⟩ := isObjSchema_iff.mp (hobj p (by simp))
    have hparse : parseNodeEntry (JValue.obj
        [("name", .str p.1), ("schema", p.2.getD (.obj []))]) = .ok (p.1, .obj fs) := by
      rw [hp2]
      simp [parseNodeEntry, jget, List.find?]
    have hnp : hasNode g0 p.1 = false := hnew p (by simp)
    have hadd : add_type g0 p.1 (.obj fs) = ⟨g0.nodes ++ [p], g0.edges⟩ := by
      unfold add_type
      rw [if_neg (by rw [hnp]; exact Bool.false_ne_true)]
      have : (p.1, some (JValue.obj fs)) = p := by
        obtain ⟨a, b⟩ := p
        simp only at hp2
        rw [hp2]
      rw [this]
    rw [List.map_cons] at hnodup
    have hcons := List.nodup_cons.mp hnodup
    have hnodup2 : (rest.map Prod.fst).Nodup := hcons.2
    have hnotmem : p.1 ∉ rest.map Prod.fst := hcons.1
    have hnew2 : ∀ q ∈ rest, hasNode (⟨g0.nodes ++ [p], g0.edges⟩ : CapabilityGraph) q.1 = false := by
      intro q hq
      rw [hasNode_append_nodes]
      have h1 : hasNode ⟨g0.nodes, g0.edges⟩ q.1 = false := hnew q (by simp [hq])
      have h2 : (p.1 == q.1) = false := by
        apply beq_eq_false_iff_ne.mpr
        intro hc
        exact hnotmem (hc ▸ List.mem_map_of_mem Prod.fst hq)
      have h1' : hasNode g0 q.1 = false := h1
      simp only [show hasNode ⟨g0.nodes, g0.edges⟩ q.1 = hasNode g0 q.1 from rfl, h1', h2]
      rfl
    have hobj2 : ∀ q ∈ rest, isObjSchema q.2 = true := fun q hq => hobj q (by simp [hq])
    rw [List.map_cons, List.foldlM_cons]
    have hstep : (do
        let q ← parseNodeEntry (JValue.obj
          [("name", .str p.1), ("schema", p.2.getD (.obj []))])
        pure (add_type g0 q.1 q.2))
        = Except.ok (⟨g0.nodes ++ [p], g0.edges⟩ : CapabilityGraph) := by
      rw [hparse, except_ok_bind]
      simp only [pure, Except.pure, hadd]
    rw [hstep, except_ok_bind, ih ⟨g0.nodes ++ [p], g0.edges⟩ hobj2 hnew2 hnodup2]
    simp

theorem hasEdge_append_edges (nodes : List (String × Option JValue))
    (edges : List ((String × String) × Tool)) (e : (String × String) × Tool)
    (u v : String) :
    hasEdge ⟨nodes, edges ++ [e]⟩ u v
      = (hasEdge ⟨nodes, edges⟩ u v || e.1 == (u, v)) := by
  simp [hasEdge, List.any_append]

theorem add_tool_append {g0 : CapabilityGraph} {e : (String × String) × Tool}
    (hkey : e.1 = (e.2.input_type, e.2.output_type))
    (hn1 : hasNode g0 e.1.1 = true) (hn2 : hasNode g0 e.1.2 = true)
    (hne : hasEdge g0 e.1.1 e.1.2 = false) :
    add_tool g0 e.2 = ⟨g0.nodes, g0.edges ++ [e]⟩ := by
  obtain ⟨⟨u, v⟩, t⟩ := e
  simp only at hkey hn1 hn2 hne
  have hu : u = t.input_type := congrArg Prod.fst hkey
  have hv : v = t.output_type := congrArg Prod.snd hkey
  subst hu
  subst hv
  have h1 : addNodeBare g0 t.input_type = g0 := addNodeBare_of_hasNode hn1
  have h2 : addNodeBare g0 t.output_type = g0 := addNodeBare_of_hasNode hn2
  simp only [add_tool, h1, h2]
  rw [if_neg (by rw [hne]; exact Bool.false_ne_true)]

/-- Loading the serialized edge list `add_tool`s every edge back, in
order. -/
theorem load_edges_fold :
    ∀ (edges : List ((String × String) × Tool)) (g0 : CapabilityGraph),
      (∀ e ∈ edges, e.1 = (e.2.input_type, e.2.output_type)) →
      (∀ e ∈ edges, hasNode g0 e.1.1 = true ∧ hasNode g0 e.1.2 = true) →
      (∀ e ∈ edges, hasEdge g0 e.1.1 e.1.2 = false) →
      (edges.map Prod.fst).Nodup →
      (edges.map (fun e => JValue.obj [("source", .str e.1.1), ("target", .str e.1.2),
          ("tool", toolToJson e.2)])).foldlM
          (fun g ev =>
            match ev with
            | .obj efs =>
              match jget efs "tool" with
              | some tv => do
                let t ← parseTool tv
                pure (add_tool g t)
              | none => .error "KeyError: tool"
            | _ => .error "edge entry is not a dict") g0
        = Except.ok ⟨g0.nodes, g0.edges ++ edges⟩ := by
  intro edges
  induction edges with
  | nil =>
    intro g0 _ _ _ _
    simp only [List.map_nil, List.foldlM_nil, List.append_nil]
    rfl
  | cons e rest ih =>
    intro g0 hkeys hnodes hne hnodup
    have hjget : jget [("source", JValue.str e.1.1), ("target", JValue.str e.1.2),
        ("tool", toolToJson e.2)] "tool" = some (toolToJson e.2) := by
      simp [jget, List.find?]
    have haddt : add_tool g0 e.2 = ⟨g0.nodes, g0.edges ++ [e]⟩ :=
      add_tool_append (hkeys e (by simp)) (hnodes e (by simp)).1 (hnodes e (by simp)).2
        (hne e (by simp))
    rw [List.map_cons] at hnodup
    have hcons := List.nodup_cons.mp hnodup
    have hnew2 : ∀ f ∈ rest, hasEdge (⟨g0.nodes, g0.edges ++ [e]⟩ : CapabilityGraph)
        f.1.1 f.1.2 = false := by
      intro f hf
      rw [hasEdge_append_edges]
      have h1 : hasEdge (⟨g0.nodes, g0.edges⟩ : CapabilityGraph) f.1.1 f.1.2 = false :=
        hne f (by simp [hf])
      have h2 : (e.1 == (f.1.1, f.1.2)) = false := by
        apply beq_eq_false_iff_ne.mpr
        intro hc
        apply hcons.1
        have : e.1 = f.1 := hc
        exact this ▸ List.mem_map_of_mem Prod.fst hf
      rw [h1, h2]
      rfl
    rw [List.map_cons, List.foldlM_cons]
    simp only [hjget, parseTool_toolToJson, except_ok_bind]
    rw [except_pure_bind, haddt]
    rw [ih ⟨g0.nodes, g0.edges ++ [e]⟩ (fun f hf => hkeys f (by simp [hf]))
      (fun f hf => hnodes f (by simp [hf])) hnew2 hcons.2]
    simp

/-- C5 amended: for every graph whose nodes all carry a (dict-valued)
`schema` attribute — i.e. every node was registered through `add_type` —
`save_to_json` followed by `load_from_json` is lossless: it reproduces
the graph exactly, with the same node names, identical schemas, and the
same edges with identical `Tool` fields (name, input_type, output_type,
constraints, code).  The restriction is forced: a schema-less node
(silently created by `add_tool`, see the C6 correction) is saved as
`attrs.get("schema", {})` and reloads carrying `schema = {}`, so the
round trip is not the identity on such graphs (see the C5
counterexample).  The remaining hypotheses are the structural invariants
every reachable networkx state satisfies: node names and edge keys are
unique (dict semantics), and every edge is keyed by its tool's endpoint
fields and joins existing nodes. -/
theorem save_load_roundtrip (g : CapabilityGraph)
    (hnodup : (g.nodes.map Prod.fst).Nodup)
    (hedup : (g.edges.map Prod.fst).Nodup)
    (hkeys : ∀ e ∈ g.edges, e.1 = (e.2.input_type, e.2.output_type))
    (hclosed : ∀ e ∈ g.edges, hasNode g e.1.1 = true ∧ hasNode g e.1.2 = true)
    (hschema : ∀ p ∈ g.nodes, isObjSchema p.2 = true) :
    load_from_json (save_to_json g) = .ok g := by
  have hn : jget [("nodes", JValue.arr (g.nodes.map (fun p =>
        JValue.obj [("name", .str p.1), ("schema", p.2.getD (.obj []))]))),
      ("edges", JValue.arr (g.edges.map (fun e =>
        JValue.obj [("source", .str e.1.1), ("target", .str e.1.2),
          ("tool", toolToJson e.2)])))] "nodes"
      = some (JValue.arr (g.nodes.map (fun p =>
        JValue.obj [("name", .str p.1), ("schema", p.2.getD (.obj []))]))) := by
    simp [jget, List.find?]
  have he : jget [("nodes", JValue.arr (g.nodes.map (fun p =>
        JValue.obj [("name", .str p.1), ("schema", p.2.getD (.obj []))]))),
      ("edges", JValue.arr (g.edges.map (fun e =>
        JValue.obj [("source", .str e.1.1), ("target", .str e.1.2),
          ("tool", toolToJson e.2)])))] "edges"
      = some (JValue.arr (g.edges.map (fun e =>
        JValue.obj [("source", .str e.1.1), ("target", .str e.1.2),
          ("tool", toolToJson e.2)]))) := by
    simp [jget, List.find?]
  simp only [load_from_json, save_to_json, hn, he]
  rw [load_nodes_fold g.nodes emptyCG hschema (fun p _ => rfl) hnodup, except_ok_bind]
  rw [load_edges_fold g.edges ⟨emptyCG.nodes ++ g.nodes, emptyCG.edges⟩ hkeys
    (fun f hf => hclosed f hf) (fun f _ => rfl) hedup]
  cases g with
  | mk ns es => simp [emptyCG]

/-- C5 witness: the concrete two-node, one-edge graph survives the round
trip unchanged. -/
theorem save_load_roundtrip_witness : load_from_json (save_to_json gWE) = .ok gWE :=
  save_load_roundtrip gWE (by decide) (by decide) (by decide) (by decide) (by decide)

theorem validateItems_all (xs : List JValue) (isch : JValue) :
    validateItems xs isch = true ↔ ∀ x ∈ xs, validate_schema x isch = true := by
  induction xs with
  | nil => simp [validateItems]
  | cons a rest ih =>
    rw [validateItems]
    simp [ih]

theorem validateProps_all (fs props : List (String × JValue)) :
    validateProps fs props = true ↔
      ∀ pp ∈ props, ∀ v, jget fs pp.1 = some v → validate_schema v pp.2 = true := by
  induction props with
  | nil => simp [validateProps]
  | cons pp rest ih =>
    obtain ⟨k, psch⟩ := pp
    rw [validateProps]
    simp only [Bool.and_eq_true, ih]
    constructor
    · rintro ⟨h1, h2⟩ qq hqq v hv
      rcases List.mem_cons.mp hqq with rfl | hmem
      · simp only at hv
        rw [hv] at h1
        exact h1
      · exact h2 qq hmem v hv
    · intro h
      constructor
      · cases hj : jget fs k with
        | none => rfl
        | some v =>
          show validate_schema v psch = true
          exact h (k, psch) (by simp) v hj
      · intro qq hqq v hv
        exact h qq (List.mem_cons_of_mem _ hqq) v hv

theorem validate_schema_string {sch v : JValue}
    (htag : schemaTag sch = some "string") :
    validate_schema v sch = pyIsStr v := by
  cases v <;> rw [validate_schema] <;> simp [htag, pyIsStr]

theorem validate_schema_integer {sch v : JValue}
    (htag : schemaTag sch = some "integer") :
    validate_schema v sch = pyIsInt v := by
  cases v <;> rw [validate_schema] <;> simp [htag, pyIsInt]

theorem validate_schema_array_items {sch isch : JValue} {xs : List JValue}
    (htag : schemaTag sch = some "array") (hitems : sch.get? "items" = some isch) :
    validate_schema (.arr xs) sch = validateItems xs isch := by
  rw [validate_schema]
  simp [htag, hitems]

theorem validate_schema_array_is_list {sch v : JValue}
    (htag : schemaTag sch = some "array") (h : validate_schema v sch = true) :
    ∃ xs, v = .arr xs := by
  cases v with
  | arr xs => exact ⟨xs, rfl⟩
  | null => simp [validate_schema, htag] at h
  | bool b => simp [validate_schema, htag] at h
  | int n => simp [validate_schema, htag] at h
  | str s => simp [validate_schema, htag] at h
  | obj fs => simp [validate_schema, htag] at h

theorem validate_schema_object_props {sch : JValue} {fs props : List (String × JValue)}
    (htag : schemaTag sch = some "object")
    (hprops : sch.get? "properties" = some (.obj props)) :
    validate_schema (.obj fs) sch = validateProps fs props := by
  rw [validate_schema]
  simp [htag, hprops]

theorem validate_schema_object_is_dict {sch v : JValue}
    (htag : schemaTag sch = some "object") (h : validate_schema v sch = true) :
    ∃ fs, v = .obj fs := by
  cases v with
  | obj fs => exact ⟨fs, rfl⟩
  | null => simp [validate_schema, htag] at h
  | bool b => simp [validate_schema, htag] at h
  | int n => simp [validate_schema, htag] at h
  | str s => simp [validate_schema, htag] at h
  | arr xs => simp [validate_schema, htag] at h

/-- C9: the structural validator emitted by the test generator — an
`array`-tagged schema requires a list and, when an `items` sub-schema is
present, every element must recursively satisfy it; an `object`-tagged
schema requires a dict, and each declared property present in the value
must recursively satisfy its sub-schema while absent keys are never
rejected; `string` and `integer` require the matching runtime kind (with
Python's `bool ≤ int` subtyping).  In particular the spec's example
schema accepts `[{"subject": "x"}]` and rejects `{"subject": "x"}`. -/
theorem generated_validator_spec :
    (∀ sch v, schemaTag sch = some "array" → validate_schema v sch = true →
        ∃ xs, v = .arr xs) ∧
    (∀ sch isch xs, schemaTag sch = some "array" → sch.get? "items" = some isch →
        (validate_schema (.arr xs) sch = true ↔
          ∀ x ∈ xs, validate_schema x isch = true)) ∧
    (∀ sch v, schemaTag sch = some "object" → validate_schema v sch = true →
        ∃ fs, v = .obj fs) ∧
    (∀ sch props fs, schemaTag sch = some "object" →
        sch.get? "properties" = some (.obj props) →
        (validate_schema (.obj fs) sch = true ↔
          ∀ pp ∈ props, ∀ v, jget fs pp.1 = some v → validate_schema v pp.2 = true)) ∧
    (∀ sch v, schemaTag sch = some "string" →
        (validate_schema v sch = true ↔ pyIsStr v = true)) ∧
    (∀ sch v, schemaTag sch = some "integer" →
        (validate_schema v sch = true ↔ pyIsInt v = true)) ∧
    (validate_schema (.arr [.obj [("subject", .str "x")]]) exSchema = true ∧
      validate_schema (.obj [("subject", .str "x")]) exSchema = false) := by
  refine ⟨?_, ?_, ?_, ?_, ?_, ?_, ?_, ?_⟩
  · intro sch v htag h
    exact validate_schema_array_is_list htag h
  · intro sch isch xs htag hitems
    rw [validate_schema_array_items htag hitems]
    exact validateItems_all xs isch
  · intro sch v htag h
    exact validate_schema_object_is_dict htag h
  · intro sch props fs htag hprops
    rw [validate_schema_object_props htag hprops]
    exact validateProps_all fs props
  · intro sch v htag
    rw [validate_schema_string htag]
  · intro sch v htag
    rw [validate_schema_integer htag]
  · simp [validate_schema, validateItems, validateProps, exSchema, schemaTag,
      JValue.get?, jget, pyIsStr, List.find?, Option.map]
  · simp [validate_schema, exSchema, schemaTag, JValue.get?, jget, List.find?]

/-- C9 witness: the array part of the validator applied at the example
schema and value, with the hypotheses discharged concretely. -/
theorem generated_validator_spec_witness :
    validate_schema (.arr [.obj [("subject", .str "x")]]) exSchema = true ↔
      ∀ x ∈ [JValue.obj [("subject", .str "x")]],
        validate_schema x (.obj [("type", .str "object"),
          ("properties", .obj [("subject", .obj [("type", .str "string")])])]) = true :=
  generated_validator_spec.2.1 exSchema
    (.obj [("type", .str "object"),
      ("properties", .obj [("subject", .obj [("type", .str "string")])])])
    [JValue.obj [("subject", .str "x")]] rfl rfl

/-- C5 counterexample: the round trip is not an isomorphism with
identical schemas on every capability graph.  `add_tool` on the empty
graph creates the endpoints `"A"`, `"B"` with no `schema` attribute;
`save_to_json` writes the missing schema as `attrs.get("schema", {})`,
and `load_from_json` re-registers the nodes through `DataType` with
`schema_def = {}` — so a node whose schema was absent comes back
carrying the empty-object schema, an observably different graph (the
agent's `nodes[t]["schema"]` lookup raises `KeyError` before the round
trip and succeeds after). -/
theorem save_load_roundtrip_counterexample :
    getSchema (add_tool emptyCG tAB) "A" = none ∧
    load_from_json (save_to_json (add_tool emptyCG tAB))
      = .ok ⟨[("A", some (.obj [])), ("B", some (.obj []))], [(("A", "B"), tAB)]⟩ ∧
    getSchema (⟨[("A", some (.obj [])), ("B", some (.obj []))],
        [(("A", "B"), tAB)]⟩ : CapabilityGraph) "A" = some (.obj []) :=
  ⟨rfl, rfl, rfl⟩
